import Mathlib

/-!
Shallow embedding of the ledger-aggregation core of the invoicing
application (TypeScript sources: `src/lib/utils.ts`,
`src/app/api/ledger/route.ts`, `src/app/api/payments/route.ts`).

Modelling conventions:
* JavaScript numbers holding monetary amounts are modelled as rationals.
* `Date` values are modelled by their `getTime()` value: milliseconds
  since the Unix epoch, as an integer.
* `Array.prototype.sort` with comparator
  `(a, b) => a.dateObj.getTime() - b.dateObj.getTime()` is modelled as a
  stable sort keyed on the timestamp (ECMAScript 2019 requires sort
  stability); `sortKeyed` below is such a stable sort.
* MongoDB documents are plain records; `populate` is modelled by storing
  the populated sub-document inline.
-/

/-- Monetary amounts (JavaScript numbers) are modelled as rationals. -/
abbrev Money := ℚ

/-- Timestamps: milliseconds since the Unix epoch (`Date.getTime()`). -/
abbrev Timestamp := Int

/-! ### Stable keyed insertion sort (model of the stable `Array.prototype.sort`) -/

/-- Insert `e` into `l` before the first element whose key is not
strictly smaller than the key of `e`.  Walking past only strictly
smaller keys makes the resulting sort stable. -/
def insertKeyed (key : α → Int) (e : α) : List α → List α
  | [] => [e]
  | x :: xs => if key x < key e then x :: insertKeyed key e xs else e :: x :: xs

/-- Stable insertion sort by an integer key: the model of the stable
JavaScript `Array.prototype.sort` with a numeric comparator on the key. -/
def sortKeyed (key : α → Int) : List α → List α
  | [] => []
  | e :: xs => insertKeyed key e (sortKeyed key xs)

/-! ### `src/lib/utils.ts` -/

/-- One `{debit, credit}` pair, the element type consumed by
`calculateRunningBalance`. -/
structure DebitCredit where
  debit : Money
  credit : Money
deriving DecidableEq

/-- Accumulator-passing form of `entries.map` with the mutable `balance`
variable of `calculateRunningBalance` made explicit. -/
def runningBalanceAux (balance : Money) : List DebitCredit → List Money
  | [] => []
  | e :: rest =>
    (balance + e.debit - e.credit) :: runningBalanceAux (balance + e.debit - e.credit) rest

/-- Model of `calculateRunningBalance` (`src/lib/utils.ts`): `let balance = 0;
return entries.map(entry => { balance += entry.debit - entry.credit; return balance })`. -/
def calculateRunningBalance (entries : List DebitCredit) : List Money :=
  runningBalanceAux 0 entries

/-- Sum of `debit - credit` over a list of pairs. -/
def netTotal (entries : List DebitCredit) : Money :=
  (entries.map (fun e => e.debit - e.credit)).sum

/-- Model of JavaScript `Number.prototype.toString()` on a natural
number: the decimal digit string. -/
def natToString (n : Nat) : String :=
  String.mk (Nat.toDigits 10 n)

/-- Model of `String.prototype.padStart(n, c)`. -/
def padStart (n : Nat) (c : Char) (s : String) : String :=
  String.mk (List.replicate (n - s.data.length) c ++ s.data)

/-- Model of `String.prototype.slice(-n)`: the last `n` characters
(the whole string when it is shorter than `n`). -/
def sliceFromEnd (n : Nat) (s : String) : String :=
  String.mk (s.data.drop (s.data.length - n))

/-- Model of `generateInvoiceNumber` (`src/lib/utils.ts`).  The impure
reads of the current date and of `Math.random()` are passed in as
arguments: `fullYear = now.getFullYear()`, `monthIndex = now.getMonth()`
(0-based), `dayOfMonth = now.getDate()`, and
`rnd = Math.floor(Math.random() * 10000)`. -/
def generateInvoiceNumber (fullYear monthIndex dayOfMonth rnd : Nat) : String :=
  let year := sliceFromEnd 2 (natToString fullYear)
  let month := padStart 2 '0' (natToString (monthIndex + 1))
  let day := padStart 2 '0' (natToString dayOfMonth)
  let random := padStart 4 '0' (natToString rnd)
  "110100" ++ year ++ month ++ day ++ random

/-! ### Date display formatting

The route formats dates with
`d.toISOString().split('T')[0].split('-').reverse().join('-').slice(0, 10)`.
We model the date part of `toISOString` by converting the timestamp to a
UTC civil date (days-to-civil algorithm); this is faithful for the years
0–9999 covered by the plain `YYYY-MM-DD` form. -/

/-- Convert a count of days since the Unix epoch to a Gregorian
`(year, month, day)` triple (UTC).  All intermediate divisions act on
nonnegative values for days from the epoch era. -/
def civilFromDays (z0 : Int) : Int × Int × Int :=
  let z : Int := z0 + 719468
  let era : Int := (if 0 ≤ z then z else z - 146096) / 146097
  let doe : Int := z - era * 146097
  let yoe : Int := (doe - doe / 1460 + doe / 36524 - doe / 146096) / 365
  let y : Int := yoe + era * 400
  let doy : Int := doe - (365 * yoe + yoe / 4 - yoe / 100)
  let mp : Int := (5 * doy + 2) / 153
  let d : Int := doy - (153 * mp + 2) / 5 + 1
  let m : Int := mp + (if mp < 10 then 3 else (-9))
  (if m ≤ 2 then y + 1 else y, m, d)

/-- The `YYYY-MM-DD` part of `Date.prototype.toISOString()`. -/
def toISODateString (t : Timestamp) : String :=
  match civilFromDays (Int.fdiv t 86400000) with
  | (y, m, d) =>
    padStart 4 '0' (natToString y.toNat) ++ "-" ++
      padStart 2 '0' (natToString m.toNat) ++ "-" ++ padStart 2 '0' (natToString d.toNat)

/-- Model of `String.prototype.split(sep)` for a one-character
separator, at the character-list level. -/
def splitOnChar (sep : Char) : List Char → List (List Char)
  | [] => [[]]
  | c :: rest =>
    if c == sep then [] :: splitOnChar sep rest
    else
      match splitOnChar sep rest with
      | [] => [[c]]
      | g :: gs => (c :: g) :: gs

/-- Model of the display-date: `toISOString().split('T')[0].split('-')
.reverse().join('-').slice(0, 10)`, i.e. `DD-MM-YYYY`. -/
def formatEntryDate (t : Timestamp) : String :=
  String.mk
    ((List.intercalate ['-'] ((splitOnChar '-' (toISODateString t).data).reverse)).take 10)

/-! ### Data model of the ledger route (`src/app/api/ledger/route.ts`) -/

/-- One invoice line item (`invoice.items[i]`). -/
structure InvoiceItem where
  nameSnapshot : String
  quantity : Money
  rate : Money
  amount : Money
deriving DecidableEq

/-- An invoice document as fetched by the route (customer and creator
references kept as their ids). -/
structure Invoice where
  _id : String
  invoiceNumber : String
  customerId : String
  createdBy : String
  invoiceDate : Timestamp
  items : List InvoiceItem
  totalAmount : Money
  paidAmount : Money
  dueAmount : Money
deriving DecidableEq

/-- The populated `payment.invoiceId` sub-document
(`populate('invoiceId', 'customerId invoiceNumber')`). -/
structure InvoiceRef where
  _id : String
  customerId : String
  invoiceNumber : String
deriving DecidableEq

/-- A payment document as fetched by the route. -/
structure Payment where
  _id : String
  invoiceId : InvoiceRef
  amount : Money
  paymentDate : Timestamp
  createdBy : String
deriving DecidableEq

/-- One ledger entry, with the fields pushed by the route.  `dateObj`
is the original date value kept for sorting; `date` is the formatted
display string. -/
structure LedgerRow where
  vNo : String
  date : String
  dateObj : Timestamp
  productName : String
  qty : Money
  rateVt : Money
  policy : String
  prInv : String
  amount : Money
  discReference : String
  debit : Money
  credit : Money
  balance : Money
  customer : String
  createdBy : String
deriving DecidableEq

/-- The entry pushed for one invoice line item (route lines 123–143). -/
def invoiceItemRow (invoice : Invoice) (item : InvoiceItem) : LedgerRow :=
  { vNo := invoice.invoiceNumber
    date := formatEntryDate invoice.invoiceDate
    dateObj := invoice.invoiceDate
    productName := item.nameSnapshot
    qty := item.quantity
    rateVt := item.rate
    policy := "CASH"
    prInv := ""
    amount := item.amount
    discReference := ""
    debit := item.amount
    credit := 0
    balance := 0
    customer := invoice.customerId
    createdBy := invoice.createdBy }

/-- All entries produced by the nested
`invoices.forEach(invoice => invoice.items.forEach(...))` loops. -/
def invoiceRows (invoices : List Invoice) : List LedgerRow :=
  invoices.flatMap (fun inv => inv.items.map (invoiceItemRow inv))

/-- The entry pushed for one payment record (route lines 146–164). -/
def paymentRow (payment : Payment) : LedgerRow :=
  { vNo := "PAY-" ++ sliceFromEnd 4 payment._id
    date := formatEntryDate payment.paymentDate
    dateObj := payment.paymentDate
    productName := "Payment for Invoice #" ++ payment.invoiceId.invoiceNumber
    qty := 1
    rateVt := payment.amount
    policy := "CASH"
    prInv := ""
    amount := payment.amount
    discReference := ""
    debit := 0
    credit := payment.amount
    balance := 0
    customer := payment.invoiceId.customerId
    createdBy := payment.createdBy }

/-- The per-invoice sum of matching payment amounts
(`invoicePayments.reduce((sum, p) => sum + p.amount, 0)`). -/
def totalPaidFromRecords (payments : List Payment) (invoice : Invoice) : Money :=
  ((payments.filter (fun p => p.invoiceId._id == invoice._id)).map (fun p => p.amount)).sum

/-- The synthetic reconciliation entry pushed when
`invoice.paidAmount > totalPaidFromRecords` (route lines 166–192). -/
def reconRow (payments : List Payment) (invoice : Invoice) : LedgerRow :=
  let paymentAmount := invoice.paidAmount - totalPaidFromRecords payments invoice
  { vNo := "PAY-" ++ sliceFromEnd 4 invoice.invoiceNumber
    date := formatEntryDate invoice.invoiceDate
    dateObj := invoice.invoiceDate
    productName := "Payment for Invoice #" ++ invoice.invoiceNumber
    qty := 1
    rateVt := paymentAmount
    policy := "CASH"
    prInv := ""
    amount := paymentAmount
    discReference := ""
    debit := 0
    credit := paymentAmount
    balance := 0
    customer := invoice.customerId
    createdBy := invoice.createdBy }

/-- The reconciliation loop: one synthetic entry per invoice whose
stored `paidAmount` strictly exceeds the matching payment total. -/
def reconRows (invoices : List Invoice) (payments : List Payment) : List LedgerRow :=
  (invoices.filter
    (fun inv => decide (totalPaidFromRecords payments inv < inv.paidAmount))).map
      (reconRow payments)

/-- The full unsorted `ledgerEntries` array, in push order: invoice line
item entries, then payment entries, then reconciliation entries. -/
def buildLedgerEntries (invoices : List Invoice) (payments : List Payment) : List LedgerRow :=
  invoiceRows invoices ++ payments.map paymentRow ++ reconRows invoices payments

/-- The sort key of an entry: `entry.dateObj.getTime()`. -/
def rowKey (r : LedgerRow) : Int := r.dateObj

/-- The entry list after
`ledgerEntries.sort((a, b) => a.dateObj.getTime() - b.dateObj.getTime())`. -/
def sortedLedgerEntries (invoices : List Invoice) (payments : List Payment) : List LedgerRow :=
  sortKeyed rowKey (buildLedgerEntries invoices payments)

/-- Project an entry to the `{debit, credit}` pair consumed by
`calculateRunningBalance`. -/
def toDebitCredit (r : LedgerRow) : DebitCredit :=
  { debit := r.debit, credit := r.credit }

/-- Attach the computed running balances
(`ledgerEntries.forEach((entry, index) => entry.balance = balances[index])`). -/
def attachBalances (rows : List LedgerRow) : List LedgerRow :=
  List.zipWith (fun r b => { r with balance := b }) rows
    (calculateRunningBalance (rows.map toDebitCredit))

/-- The final `entries` array of a successful response. -/
def ledgerEntries (invoices : List Invoice) (payments : List Payment) : List LedgerRow :=
  attachBalances (sortedLedgerEntries invoices payments)

/-- The `summary` object of the response. -/
structure LedgerSummary where
  totalCredit : Money
  totalPaid : Money
  currentBalance : Money
  totalEntries : Nat
deriving DecidableEq

/-- The summary computation of the route (lines 205–217): invoice-level
`reduce` totals, their difference, and the entry count. -/
def ledgerSummaryOf (invoices : List Invoice) (entries : List LedgerRow) : LedgerSummary :=
  let totalCredit := invoices.foldl (fun sum inv => sum + inv.totalAmount) 0
  let totalPaid := invoices.foldl (fun sum inv => sum + inv.paidAmount) 0
  { totalCredit := totalCredit
    totalPaid := totalPaid
    currentBalance := totalCredit - totalPaid
    totalEntries := entries.length }

/-- The body of a successful ledger response. -/
structure LedgerResponse where
  entries : List LedgerRow
  summary : LedgerSummary
deriving DecidableEq

/-- Assemble the successful response from the fetched invoices and
payments. -/
def ledgerResponseOf (invoices : List Invoice) (payments : List Payment) : LedgerResponse :=
  let entries := ledgerEntries invoices payments
  { entries := entries, summary := ledgerSummaryOf invoices entries }

/-! ### Provenance-tagged entry construction

To state ordering-stability properties we build the same entry list with
each entry tagged by its origin; erasing the tags recovers
`buildLedgerEntries` exactly. -/

/-- Where one ledger entry came from: the `j`-th line item of the `i`-th
fetched invoice, the `k`-th fetched payment, or the reconciliation entry
of the `i`-th fetched invoice. -/
inductive RowOrigin where
  | item (invIdx itemIdx : Nat)
  | pay (payIdx : Nat)
  | recon (invIdx : Nat)
deriving DecidableEq

/-- The tagged counterpart of `buildLedgerEntries`. -/
def taggedBuild (invoices : List Invoice) (payments : List Payment) :
    List (RowOrigin × LedgerRow) :=
  invoices.enum.flatMap
      (fun p => p.2.items.enum.map (fun q => (RowOrigin.item p.1 q.1, invoiceItemRow p.2 q.2)))
    ++ payments.enum.map (fun p => (RowOrigin.pay p.1, paymentRow p.2))
    ++ (invoices.enum.filter
        (fun p => decide (totalPaidFromRecords payments p.2 < p.2.paidAmount))).map
          (fun p => (RowOrigin.recon p.1, reconRow payments p.2))

/-- The invoice-line-item segment of `taggedBuild`. -/
def taggedItemRows (invoices : List Invoice) : List (RowOrigin × LedgerRow) :=
  invoices.enum.flatMap
    (fun p => p.2.items.enum.map (fun q => (RowOrigin.item p.1 q.1, invoiceItemRow p.2 q.2)))

/-- The payment segment of `taggedBuild`. -/
def taggedPayRows (payments : List Payment) : List (RowOrigin × LedgerRow) :=
  payments.enum.map (fun p => (RowOrigin.pay p.1, paymentRow p.2))

/-- The reconciliation segment of `taggedBuild`. -/
def taggedReconRows (invoices : List Invoice) (payments : List Payment) :
    List (RowOrigin × LedgerRow) :=
  (invoices.enum.filter
    (fun p => decide (totalPaidFromRecords payments p.2 < p.2.paidAmount))).map
      (fun p => (RowOrigin.recon p.1, reconRow payments p.2))

/-- Sort key of a tagged entry: the key of the underlying entry. -/
def taggedKey (x : RowOrigin × LedgerRow) : Int := rowKey x.2

/-- The tagged counterpart of `sortedLedgerEntries`. -/
def taggedSorted (invoices : List Invoice) (payments : List Payment) :
    List (RowOrigin × LedgerRow) :=
  sortKeyed taggedKey (taggedBuild invoices payments)

/-- Whether an origin is a line item of the `i`-th invoice. -/
def isItemOf (i : Nat) : RowOrigin → Bool
  | RowOrigin.item i' _ => i' == i
  | _ => false

/-- Whether an origin is an invoice line item (as opposed to a payment
or reconciliation entry). -/
def isItemOrigin : RowOrigin → Bool
  | RowOrigin.item _ _ => true
  | _ => false

/-! ### Handler-level model of `GET /api/ledger`

The model covers the handler after a successful session check and
database connection: query-string parameters in, response out, together
with the list of store (collection) queries issued.  Mongo `find` calls
are modelled as filters over the corresponding document lists; the
`$regex`/`$options: 'i'` area filter is a case-insensitive substring
test.  The route filters invoices by area with
`customerIds.includes(invoice.customerId._id)`; we model `includes` as
membership by id value.  Mongo's `.sort({field: 1})` is modelled with
the stable keyed sort. -/

/-- A customer document (`Customer` collection). -/
structure Customer where
  _id : String
  name : String
  area : String
deriving DecidableEq

/-- The query-string parameters of the ledger route.  `none` models an
absent parameter (`searchParams.get` returning `null`). -/
structure LedgerQuery where
  customerId : Option String
  area : Option String
  createdBy : Option String
  fromDate : Option Timestamp
  toDate : Option Timestamp
deriving DecidableEq

/-- The document database visible to the route. -/
structure Db where
  customers : List Customer
  invoices : List Invoice
  payments : List Payment
deriving DecidableEq

/-- One query against a backing collection. -/
inductive StoreCall where
  | invoiceFind
  | customerFind
  | paymentFind
deriving DecidableEq

/-- The failure responses of the route that are part of this model. -/
inductive LedgerError where
  | invalidQuery
deriving DecidableEq

/-- Whether `needle` occurs as a contiguous run inside `hay`. -/
def charListHasInfix (needle : List Char) : List Char → Bool
  | [] => decide (needle = [])
  | c :: rest => needle.isPrefixOf (c :: rest) || charListHasInfix needle rest

/-- Model of the Mongo filter `{ $regex: pattern, $options: 'i' }` on a
literal pattern: case-insensitive substring test. -/
def regexTestCI (pattern s : String) : Bool :=
  charListHasInfix (pattern.data.map Char.toLower) (s.data.map Char.toLower)

/-- `fromDateObj.setHours(0, 0, 0, 0)`: start of the day containing `t`. -/
def startOfDay (t : Timestamp) : Timestamp := 86400000 * Int.fdiv t 86400000

/-- `toDateObj.setHours(23, 59, 59, 999)`: end of the day containing `t`. -/
def endOfDay (t : Timestamp) : Timestamp := startOfDay t + 86399999

/-- The `$gte`/`$lte` date-range condition built by the route
(day-floored lower bound, day-ceilinged upper bound). -/
def dateInRange (fromD toD : Option Timestamp) (t : Timestamp) : Bool :=
  (match fromD with
   | none => true
   | some f => decide (startOfDay f ≤ t)) &&
  (match toD with
   | none => true
   | some g => decide (t ≤ endOfDay g))

/-- The invoice query built by the route (customer, creator, date range). -/
def invoiceMatches (q : LedgerQuery) (inv : Invoice) : Bool :=
  (match q.customerId with
   | none => true
   | some c => inv.customerId == c) &&
  (match q.createdBy with
   | none => true
   | some u => inv.createdBy == u) &&
  dateInRange q.fromDate q.toDate inv.invoiceDate

/-- The payment query built by the route.  The `invoiceId: { $in: ids }`
clause is present only when `idFilter` is `some ids` — the route skips
it whenever `customerIds.length == 0`. -/
def paymentMatches (q : LedgerQuery) (idFilter : Option (List String)) (p : Payment) : Bool :=
  (match idFilter with
   | none => true
   | some ids => ids.contains p.invoiceId._id) &&
  (match q.createdBy with
   | none => true
   | some u => p.createdBy == u) &&
  dateInRange q.fromDate q.toDate p.paymentDate

/-- The handler of `GET /api/ledger` after session check and database
connection: validates the filters, fetches and filters documents, and
assembles the response; also returns the collection queries issued, in
order. -/
def ledgerGET (db : Db) (q : LedgerQuery) :
    Except LedgerError LedgerResponse × List StoreCall :=
  if q.customerId = none ∧ q.area = none then
    (Except.error LedgerError.invalidQuery, [])
  else
    let invoices0 := sortKeyed (fun inv => inv.invoiceDate) (db.invoices.filter (invoiceMatches q))
    let resolved : List String × List Invoice × List StoreCall :=
      match q.customerId, q.area with
      | some c, _ => ([c], invoices0, [StoreCall.invoiceFind])
      | none, some a =>
        let customers := db.customers.filter (fun c => regexTestCI a c.area)
        let ids := customers.map (fun c => c._id)
        (ids, invoices0.filter (fun inv => ids.contains inv.customerId),
          [StoreCall.invoiceFind, StoreCall.customerFind])
      | none, none => ([], invoices0, [StoreCall.invoiceFind])
    let customerIds := resolved.1
    let invoices := resolved.2.1
    let idFilter : Option (List String) :=
      if customerIds.length > 0 then some (invoices.map (fun inv => inv._id)) else none
    let payments :=
      sortKeyed (fun p => p.paymentDate) (db.payments.filter (paymentMatches q idFilter))
    (Except.ok (ledgerResponseOf invoices payments), resolved.2.2 ++ [StoreCall.paymentFind])

/-! ### Model of `POST /api/payments` (`src/app/api/payments/route.ts`)

The model covers the handler after the session check and schema
validation: it looks the invoice up, rejects a missing invoice with 404
and an amount above the invoice's stored `dueAmount` with 400, and
otherwise creates the payment document. -/

/-- The validated request body of a payment creation. -/
structure PaymentInput where
  invoiceId : String
  amount : Money
  paymentDate : Timestamp
deriving DecidableEq

/-- The payment document saved on success. -/
structure PaymentDoc where
  invoiceId : String
  amount : Money
  paymentDate : Timestamp
  createdBy : String
deriving DecidableEq

/-- The handler of `POST /api/payments` after session check and schema
validation: the HTTP status returned, and the saved document if any. -/
def paymentsPOST (invoiceStore : List Invoice) (userId : String) (input : PaymentInput) :
    Nat × Option PaymentDoc :=
  match invoiceStore.find? (fun inv => inv._id == input.invoiceId) with
  | none => (404, none)
  | some invoice =>
    if input.amount > invoice.dueAmount then
      (400, none)
    else
      (201, some { invoiceId := input.invoiceId, amount := input.amount,
                   paymentDate := input.paymentDate, createdBy := userId })

/-! ### Concrete documents used by witnesses and counterexamples -/

/-- Timestamp of day `n` after the epoch (midnight UTC). -/
def dayTs (n : Nat) : Timestamp := 86400000 * (n : Int)

/-- An invoice with `totalAmount = 1000`, `paidAmount = 400`,
`dueAmount = 600` and one line item, as in the reconciliation test of
the specification. -/
def exInvoiceRecon : Invoice :=
  { _id := "inv-1", invoiceNumber := "1101002510010001", customerId := "cust-1"
    createdBy := "user-1", invoiceDate := dayTs 20362
    items := [{ nameSnapshot := "Widget", quantity := 10, rate := 100, amount := 1000 }]
    totalAmount := 1000, paidAmount := 400, dueAmount := 600 }

/-- First invoice of the end-to-end scenario: fully paid, one line item. -/
def exInvoiceA : Invoice :=
  { _id := "inv-A", invoiceNumber := "1101002510010002", customerId := "cust-1"
    createdBy := "user-1", invoiceDate := dayTs 20362
    items := [{ nameSnapshot := "Widget", quantity := 10, rate := 100, amount := 1000 }]
    totalAmount := 1000, paidAmount := 1000, dueAmount := 0 }

/-- Second invoice of the end-to-end scenario: partially paid through an
explicit payment record. -/
def exInvoiceB : Invoice :=
  { _id := "inv-B", invoiceNumber := "1101002510050003", customerId := "cust-1"
    createdBy := "user-1", invoiceDate := dayTs 20366
    items := [{ nameSnapshot := "Gadget", quantity := 5, rate := 100, amount := 500 }]
    totalAmount := 500, paidAmount := 200, dueAmount := 300 }

/-- The explicit payment of 200 against the second invoice. -/
def exPaymentB : Payment :=
  { _id := "pay-0001"
    invoiceId := { _id := "inv-B", customerId := "cust-1", invoiceNumber := "1101002510050003" }
    amount := 200, paymentDate := dayTs 20366, createdBy := "user-1" }

/-- A payment attached to an invoice of a customer outside the queried
area. -/
def exPaymentOther : Payment :=
  { _id := "pay-0002"
    invoiceId := { _id := "inv-N", customerId := "cust-N", invoiceNumber := "1101002510050004" }
    amount := 50, paymentDate := dayTs 20366, createdBy := "user-2" }

/-- The invoice behind `exPaymentOther`, owned by a customer in area
`"north"`. -/
def exInvoiceOther : Invoice :=
  { _id := "inv-N", invoiceNumber := "1101002510050004", customerId := "cust-N"
    createdBy := "user-2", invoiceDate := dayTs 20366
    items := [{ nameSnapshot := "Bolt", quantity := 1, rate := 50, amount := 50 }]
    totalAmount := 50, paidAmount := 50, dueAmount := 0 }

/-- A database whose only customer lives in area `"north"`. -/
def exDbNorth : Db :=
  { customers := [{ _id := "cust-N", name := "Nadia", area := "north" }]
    invoices := [exInvoiceOther]
    payments := [exPaymentOther] }

/-- A ledger query for area `"south"`, matching no customer. -/
def exQuerySouth : LedgerQuery :=
  { customerId := none, area := some "south", createdBy := none
    fromDate := none, toDate := none }

/-- A ledger query with neither a customer id nor an area. -/
def exQueryEmpty : LedgerQuery :=
  { customerId := none, area := none, createdBy := some "user-1"
    fromDate := none, toDate := some (dayTs 20366) }

/-- Decidable equality for the handler result type. -/
instance : DecidableEq (Except LedgerError LedgerResponse) := fun a b =>
  match a, b with
  | Except.error e, Except.error f =>
    if h : e = f then isTrue (by rw [h]) else isFalse (by intro hc; cases hc; exact h rfl)
  | Except.error _, Except.ok _ => isFalse (by intro hc; cases hc)
  | Except.ok _, Except.error _ => isFalse (by intro hc; cases hc)
  | Except.ok x, Except.ok y =>
    if h : x = y then isTrue (by rw [h]) else isFalse (by intro hc; cases hc; exact h rfl)

/-! ## Theorems

First the generic lemmas about the stable keyed sort and the running
balance, then one theorem per specification claim (with witnesses and
counterexamples). -/

theorem insertKeyed_perm (key : α → Int) (e : α) (l : List α) :
    List.Perm (insertKeyed key e l) (e :: l) := by
  induction l with
  | nil => simp [insertKeyed]
  | cons x xs ih =>
    simp only [insertKeyed]
    by_cases h : key x < key e
    · simpa [h] using ((ih.cons x).trans (List.Perm.swap e x xs))
    · simp [h]

theorem sortKeyed_perm (key : α → Int) (l : List α) : List.Perm (sortKeyed key l) l := by
  induction l with
  | nil => simp [sortKeyed]
  | cons e xs ih =>
    exact (insertKeyed_perm key e (sortKeyed key xs)).trans (ih.cons e)

theorem sortKeyed_length (key : α → Int) (l : List α) :
    (sortKeyed key l).length = l.length :=
  (sortKeyed_perm key l).length_eq

theorem insertKeyed_sorted (key : α → Int) (e : α) (l : List α)
    (h : l.Pairwise (fun a b => key a ≤ key b)) :
    (insertKeyed key e l).Pairwise (fun a b => key a ≤ key b) := by
  induction l with
  | nil => simp [insertKeyed]
  | cons x xs ih =>
    simp only [insertKeyed]
    rcases h with _ | ⟨hx, hxs⟩
    by_cases hlt : key x < key e
    · simp only [if_pos hlt]
      refine List.Pairwise.cons ?_ (ih hxs)
      intro b hb
      rcases List.mem_cons.mp ((insertKeyed_perm key e xs).mem_iff.mp hb) with rfl | hb
      · exact le_of_lt hlt
      · exact hx b hb
    · simp only [if_neg hlt]
      refine List.Pairwise.cons ?_ (List.Pairwise.cons hx hxs)
      intro b hb
      rcases List.mem_cons.mp hb with rfl | hb
      · exact le_of_not_lt hlt
      · exact le_trans (le_of_not_lt hlt) (hx b hb)

theorem sortKeyed_sorted (key : α → Int) (l : List α) :
    (sortKeyed key l).Pairwise (fun a b => key a ≤ key b) := by
  induction l with
  | nil => simp [sortKeyed]
  | cons e xs ih => exact insertKeyed_sorted key e _ ih

theorem insertKeyed_filter_key (key : α → Int) (e : α) (l : List α) (K : Int) :
    (insertKeyed key e l).filter (fun x => key x == K) =
      if key e = K then e :: l.filter (fun x => key x == K)
      else l.filter (fun x => key x == K) := by
  induction l with
  | nil => by_cases he : key e = K <;> simp [insertKeyed, List.filter_cons, he]
  | cons x xs ih =>
    simp only [insertKeyed]
    by_cases hlt : key x < key e
    · simp only [if_pos hlt, List.filter_cons]
      by_cases hx : key x = K
      · have he : ¬ key e = K := by omega
        simp [hx, he, ih, List.filter_cons]
      · simp [hx, ih]
    · simp only [if_neg hlt, List.filter_cons]
      by_cases he : key e = K <;> by_cases hx : key x = K <;> simp [he, hx]

theorem sortKeyed_filter_key (key : α → Int) (l : List α) (K : Int) :
    (sortKeyed key l).filter (fun x => key x == K) = l.filter (fun x => key x == K) := by
  induction l with
  | nil => rfl
  | cons e xs ih =>
    simp only [sortKeyed, insertKeyed_filter_key, ih, List.filter_cons]
    by_cases he : key e = K <;> simp [he]

theorem insertKeyed_map (f : α → β) (key : β → Int) (e : α) (l : List α) :
    (insertKeyed (fun a => key (f a)) e l).map f = insertKeyed key (f e) (l.map f) := by
  induction l with
  | nil => simp [insertKeyed]
  | cons x xs ih =>
    by_cases hlt : key (f x) < key (f e) <;>
      simp [insertKeyed, hlt, ih]

theorem sortKeyed_map (f : α → β) (key : β → Int) (l : List α) :
    (sortKeyed (fun a => key (f a)) l).map f = sortKeyed key (l.map f) := by
  induction l with
  | nil => rfl
  | cons e xs ih => simp [sortKeyed, insertKeyed_map, ih]

theorem runningBalanceAux_length (b : Money) (l : List DebitCredit) :
    (runningBalanceAux b l).length = l.length := by
  induction l generalizing b with
  | nil => rfl
  | cons e rest ih => simp [runningBalanceAux, ih]

theorem runningBalanceAux_getD_succ (l : List DebitCredit) (b : Money) (i : Nat)
    (h : i + 1 < l.length) :
    (runningBalanceAux b l).getD (i + 1) 0 =
      (runningBalanceAux b l).getD i 0 + (l.getD (i + 1) ⟨0, 0⟩).debit
        - (l.getD (i + 1) ⟨0, 0⟩).credit := by
  induction l generalizing b i with
  | nil => simp at h
  | cons e rest ih =>
    cases i with
    | zero =>
      match rest, h with
      | f :: rest2, _ => simp [runningBalanceAux, List.getD]
    | succ j =>
      have hj : j + 1 < rest.length := by simpa using h
      simpa [runningBalanceAux, List.getD] using
        ih (b + e.debit - e.credit) j hj

theorem runningBalanceAux_getLast? (l : List DebitCredit) (b : Money) (h : l ≠ []) :
    (runningBalanceAux b l).getLast? = some (b + netTotal l) := by
  induction l generalizing b with
  | nil => exact absurd rfl h
  | cons e rest ih =>
    cases rest with
    | nil => simp [runningBalanceAux, netTotal]; ring
    | cons f rest2 =>
      have : (runningBalanceAux b (e :: f :: rest2)).getLast? =
          (runningBalanceAux (b + e.debit - e.credit) (f :: rest2)).getLast? := by
        simp [runningBalanceAux]
      rw [this, ih (b + e.debit - e.credit) (by simp)]
      simp [netTotal]
      ring

/-- C1.  `calculateRunningBalance` returns a sequence of the same length
as its input in which every element equals the previous element (0
before the first) plus the entry's debit minus its credit.  The model is
a pure function, reflecting that the original performs no side effects
and no I of O beyond the local `balance` accumulator. -/
theorem calculateRunningBalance_correct (entries : List DebitCredit) :
    (calculateRunningBalance entries).length = entries.length ∧
    (∀ i, i < entries.length →
      (calculateRunningBalance entries).getD i 0 =
        (if i = 0 then 0 else (calculateRunningBalance entries).getD (i - 1) 0)
          + (entries.getD i ⟨0, 0⟩).debit - (entries.getD i ⟨0, 0⟩).credit) := by
  constructor
  · exact runningBalanceAux_length 0 entries
  · intro i hi
    cases i with
    | zero =>
      match entries, hi with
      | e :: rest, _ => simp [calculateRunningBalance, runningBalanceAux, List.getD]
    | succ j =>
      simpa using runningBalanceAux_getD_succ entries 0 j hi

/-- Witness for C1 at a concrete input. -/
theorem calculateRunningBalance_correct_witness :
    (calculateRunningBalance [⟨5, 2⟩, ⟨1, 4⟩]).getD 1 0 =
      (calculateRunningBalance [⟨5, 2⟩, ⟨1, 4⟩]).getD 0 0 + 1 - 4 := by
  have h := (calculateRunningBalance_correct [⟨5, 2⟩, ⟨1, 4⟩]).2 1 (by decide)
  simpa [List.getD] using h

theorem foldl_add_eq_sum (f : α → Money) (l : List α) (b : Money) :
    l.foldl (fun sum x => sum + f x) b = b + (l.map f).sum := by
  induction l generalizing b with
  | nil => simp
  | cons x xs ih => simp [ih]; ring

/-- C4.  For every successful ledger response, `totalCredit` is the sum
of the fetched invoices' `totalAmount`, `totalPaid` is the sum of their
stored `paidAmount` (taken from the invoice records, not re-derived from
entries or payments), `currentBalance = totalCredit - totalPaid`, and
`totalEntries` is the number of entries returned. -/
theorem ledgerSummary_correct (invoices : List Invoice) (payments : List Payment) :
    (ledgerResponseOf invoices payments).summary.totalCredit
        = (invoices.map (fun inv => inv.totalAmount)).sum ∧
    (ledgerResponseOf invoices payments).summary.totalPaid
        = (invoices.map (fun inv => inv.paidAmount)).sum ∧
    (ledgerResponseOf invoices payments).summary.currentBalance
        = (ledgerResponseOf invoices payments).summary.totalCredit
            - (ledgerResponseOf invoices payments).summary.totalPaid ∧
    (ledgerResponseOf invoices payments).summary.totalEntries
        = (ledgerResponseOf invoices payments).entries.length := by
  refine ⟨?_, ?_, rfl, rfl⟩ <;>
    simp [ledgerResponseOf, ledgerSummaryOf, foldl_add_eq_sum]

theorem enumFrom_filter_fst_lt (l : List α) (n i : Nat) (h : i < n) :
    (l.enumFrom n).filter (fun p => p.1 == i) = [] := by
  induction l generalizing n with
  | nil => rfl
  | cons x xs ih =>
    have hne : ¬ (n == i) = true := by simp; omega
    simp only [List.enumFrom_cons, List.filter_cons, hne]
    exact ih (n + 1) (Nat.lt_succ_of_lt h)

theorem enumFrom_filter_fst_eq (l : List α) (n j : Nat) (h : j < l.length) :
    (l.enumFrom n).filter (fun p => p.1 == n + j) = [(n + j, l.get ⟨j, h⟩)] := by
  induction l generalizing n j with
  | nil => simp at h
  | cons x xs ih =>
    cases j with
    | zero =>
      simp only [List.enumFrom_cons, List.filter_cons]
      have h0 : (xs.enumFrom (n + 1)).filter (fun p => p.1 == n + 0) = [] :=
        enumFrom_filter_fst_lt xs (n + 1) (n + 0) (by omega)
      simp [h0]
      intro a b hab hEq
      have h1 := enumFrom_filter_fst_lt xs (n + 1) n (by omega)
      rw [List.filter_eq_nil_iff] at h1
      exact h1 (a, b) hab (by simp [hEq])
    | succ k =>
      have hk : k < xs.length := by simpa using h
      simp only [List.enumFrom_cons, List.filter_cons]
      have hne : ¬ (n == n + (k + 1)) = true := by simp
      simp only [hne, if_false]
      have := ih (n + 1) k hk
      have harith : n + 1 + k = n + (k + 1) := by omega
      rw [harith] at this
      simp_all

theorem filter_and_of_imp (l : List α) (q c : α → Bool)
    (h : ∀ a ∈ l, q a = true → c a = true) :
    l.filter (fun a => q a && c a) = l.filter q := by
  induction l with
  | nil => rfl
  | cons x xs ih =>
    simp only [List.filter_cons]
    by_cases hx : q x = true
    · rw [h x (by simp) hx]
      simp only [hx, Bool.and_true, Bool.true_and]
      rw [ih (fun a ha => h a (by simp [ha]))]
    · have : (q x && c x) = false := by simp [hx]
      simp only [this, Bool.false_eq_true, if_false, hx, if_false]
      exact ih (fun a ha => h a (by simp [ha]))

theorem taggedBuild_filter_recon (invoices : List Invoice) (payments : List Payment)
    (i : Nat) (hi : i < invoices.length)
    (hshort : totalPaidFromRecords payments (invoices.get ⟨i, hi⟩)
        < (invoices.get ⟨i, hi⟩).paidAmount) :
    (taggedBuild invoices payments).filter (fun x => x.1 == RowOrigin.recon i)
      = [(RowOrigin.recon i, reconRow payments (invoices.get ⟨i, hi⟩))] := by
  unfold taggedBuild
  rw [List.filter_append, List.filter_append]
  have h1 : (invoices.enum.flatMap
      (fun p => p.2.items.enum.map
        (fun q => (RowOrigin.item p.1 q.1, invoiceItemRow p.2 q.2)))).filter
          (fun x => x.1 == RowOrigin.recon i) = [] := by
    rw [List.filter_eq_nil_iff]
    intro x hx
    simp only [List.mem_flatMap, List.mem_map] at hx
    obtain ⟨p, _, q, _, rfl⟩ := hx
    simp
  have h2 : (payments.enum.map (fun p => (RowOrigin.pay p.1, paymentRow p.2))).filter
      (fun x => x.1 == RowOrigin.recon i) = [] := by
    rw [List.filter_eq_nil_iff]
    intro x hx
    simp only [List.mem_map] at hx
    obtain ⟨p, _, rfl⟩ := hx
    simp
  rw [h1, h2, List.nil_append, List.nil_append]
  rw [List.filter_map]
  have hcong : (invoices.enum.filter
        (fun p => decide (totalPaidFromRecords payments p.2 < p.2.paidAmount))).filter
      ((fun x => x.1 == RowOrigin.recon i) ∘
        (fun p => (RowOrigin.recon p.1, reconRow payments p.2)))
    = (invoices.enum.filter
        (fun p => decide (totalPaidFromRecords payments p.2 < p.2.paidAmount))).filter
      (fun p => p.1 == i) := by
    apply List.filter_congr
    intro p _
    simp
  rw [hcong, List.filter_filter]
  have himp : invoices.enum.filter
      (fun p => (p.1 == i) &&
        decide (totalPaidFromRecords payments p.2 < p.2.paidAmount))
    = invoices.enum.filter (fun p => p.1 == i) := by
    apply filter_and_of_imp
    intro p hp hq
    obtain ⟨k, hk⟩ := List.mem_iff_get.mp hp
    have hkl : k.1 < invoices.length := by
      have := k.2
      simpa [List.enum_eq_enumFrom] using this
    have hpk : p = (k.1, invoices.get ⟨k.1, hkl⟩) := by
      rw [← hk]
      rcases k with ⟨kv, hkv⟩
      simp [List.enum_eq_enumFrom, List.get_eq_getElem, List.getElem_enumFrom]
    have hki : k.1 = i := by
      have := hq
      rw [hpk] at this
      simpa using this
    subst hki
    rw [hpk]
    simpa using hshort
  rw [himp]
  have := enumFrom_filter_fst_eq invoices 0 i hi
  rw [Nat.zero_add] at this
  rw [List.enum_eq_enumFrom, this]
  simp

/-- C2.  For every fetched invoice whose stored `paidAmount` strictly
exceeds the sum of the fetched payments belonging to it, the aggregator
appends exactly one synthetic credit entry (exactly one entry of the
built list originates from that invoice's reconciliation), and that
entry's credit is the shortfall, its date is the invoice date, and its
voucher label is the fixed payment label plus the last 4 characters of
the invoice number. -/
theorem recon_entry_correct (invoices : List Invoice) (payments : List Payment)
    (i : Nat) (hi : i < invoices.length)
    (hshort : totalPaidFromRecords payments (invoices.get ⟨i, hi⟩)
        < (invoices.get ⟨i, hi⟩).paidAmount) :
    ((taggedBuild invoices payments).filter (fun x => x.1 == RowOrigin.recon i))
        = [(RowOrigin.recon i, reconRow payments (invoices.get ⟨i, hi⟩))] ∧
    reconRow payments (invoices.get ⟨i, hi⟩) ∈ buildLedgerEntries invoices payments ∧
    (reconRow payments (invoices.get ⟨i, hi⟩)).credit
        = (invoices.get ⟨i, hi⟩).paidAmount
            - totalPaidFromRecords payments (invoices.get ⟨i, hi⟩) ∧
    (reconRow payments (invoices.get ⟨i, hi⟩)).debit = 0 ∧
    (reconRow payments (invoices.get ⟨i, hi⟩)).dateObj = (invoices.get ⟨i, hi⟩).invoiceDate ∧
    (reconRow payments (invoices.get ⟨i, hi⟩)).vNo
        = "PAY-" ++ sliceFromEnd 4 (invoices.get ⟨i, hi⟩).invoiceNumber := by
  refine ⟨taggedBuild_filter_recon invoices payments i hi hshort, ?_, rfl, rfl, rfl, rfl⟩
  unfold buildLedgerEntries reconRows
  refine List.mem_append.mpr (Or.inr ?_)
  refine List.mem_map.mpr ⟨invoices.get ⟨i, hi⟩, ?_, rfl⟩
  exact List.mem_filter.mpr ⟨List.get_mem _ _ _, by simpa using hshort⟩

/-- Witness for C2: an invoice with `totalAmount = 1000`,
`paidAmount = 400` and no explicit payment records yields exactly one
synthetic credit entry of 400. -/
theorem recon_entry_correct_witness :
    ((taggedBuild [exInvoiceRecon] []).filter (fun x => x.1 == RowOrigin.recon 0))
        = [(RowOrigin.recon 0, reconRow [] exInvoiceRecon)] ∧
    (reconRow [] exInvoiceRecon).credit = 400 := by
  have h := recon_entry_correct [exInvoiceRecon] [] 0 (by decide) (by decide)
  refine ⟨h.1, ?_⟩
  have hc : (reconRow [] exInvoiceRecon).credit
      = exInvoiceRecon.paidAmount - totalPaidFromRecords [] exInvoiceRecon := h.2.2.1
  rw [hc]
  simp [exInvoiceRecon, totalPaidFromRecords]

/-- C8 counterexample: the claim that payment-only rows have quantity,
rate and amount zero-filled fails on the entry built from a concrete
payment record of amount 200, whose quantity is 1 and whose rate and
amount are 200. -/
theorem payment_rows_zero_filled_counterexample :
    ¬ (∀ r ∈ buildLedgerEntries [] [exPaymentB],
        r.debit = 0 → r.qty = 0 ∧ r.rateVt = 0 ∧ r.amount = 0) := by
  decide

/-- C8 (amended).  On every built entry at most one of debit and credit
is nonzero: invoice line rows have `credit = 0`, payment and
reconciliation rows have `debit = 0`.  Payment-only rows are not
zero-filled: they carry `qty = 1` and `rateVt` and `amount` equal to the
credited amount. -/
theorem ledger_rows_debit_xor_credit (invoices : List Invoice) (payments : List Payment) :
    (∀ r ∈ buildLedgerEntries invoices payments, r.debit = 0 ∨ r.credit = 0) ∧
    (∀ r ∈ invoiceRows invoices, r.credit = 0) ∧
    (∀ p ∈ payments, (paymentRow p).debit = 0 ∧ (paymentRow p).qty = 1 ∧
      (paymentRow p).rateVt = p.amount ∧ (paymentRow p).amount = p.amount ∧
      (paymentRow p).credit = p.amount) ∧
    (∀ r ∈ reconRows invoices payments, r.debit = 0 ∧ r.qty = 1 ∧
      r.rateVt = r.credit ∧ r.amount = r.credit) := by
  refine ⟨?_, ?_, ?_, ?_⟩
  · intro r hr
    rcases List.mem_append.mp hr with hr | hr
    · rcases List.mem_append.mp hr with hr | hr
      · right
        simp only [invoiceRows, List.mem_flatMap, List.mem_map] at hr
        obtain ⟨inv, _, item, _, rfl⟩ := hr
        rfl
      · left
        obtain ⟨p, _, rfl⟩ := List.mem_map.mp hr
        rfl
    · left
      simp only [reconRows, List.mem_map] at hr
      obtain ⟨inv, _, rfl⟩ := hr
      rfl
  · intro r hr
    simp only [invoiceRows, List.mem_flatMap, List.mem_map] at hr
    obtain ⟨inv, _, item, _, rfl⟩ := hr
    rfl
  · intro p _
    exact ⟨rfl, rfl, rfl, rfl, rfl⟩
  · intro r hr
    simp only [reconRows, List.mem_map] at hr
    obtain ⟨inv, _, rfl⟩ := hr
    exact ⟨rfl, rfl, rfl, rfl⟩

/-- Witness for C8's amended theorem at a concrete ledger. -/
theorem ledger_rows_debit_xor_credit_witness :
    (paymentRow exPaymentB).debit = 0 ∧ (paymentRow exPaymentB).qty = 1 := by
  have h := (ledger_rows_debit_xor_credit [] [exPaymentB]).2.2.1 exPaymentB (by decide)
  exact ⟨h.1, h.2.1⟩

/-- C7.  A ledger query with neither a customer id nor an area fails
with the invalid-query error and issues no store query at all. -/
theorem ledgerGET_missing_filters (db : Db) (q : LedgerQuery)
    (hc : q.customerId = none) (ha : q.area = none) :
    ledgerGET db q = (Except.error LedgerError.invalidQuery, []) := by
  unfold ledgerGET
  rw [if_pos ⟨hc, ha⟩]

/-- Witness for C7 at a concrete database and query. -/
theorem ledgerGET_missing_filters_witness :
    ledgerGET exDbNorth exQueryEmpty = (Except.error LedgerError.invalidQuery, []) :=
  ledgerGET_missing_filters exDbNorth exQueryEmpty rfl rfl

/-- C10.  Creating a payment against a missing invoice returns 404 and
saves nothing; creating a payment whose amount strictly exceeds the
invoice's stored `dueAmount` returns 400 and saves nothing. -/
theorem paymentsPOST_guards (store : List Invoice) (userId : String) (input : PaymentInput) :
    (store.find? (fun inv => inv._id == input.invoiceId) = none →
      paymentsPOST store userId input = (404, none)) ∧
    (∀ inv, store.find? (fun inv0 => inv0._id == input.invoiceId) = some inv →
      input.amount > inv.dueAmount →
      paymentsPOST store userId input = (400, none)) := by
  constructor
  · intro h
    unfold paymentsPOST
    rw [h]
  · intro inv h hgt
    unfold paymentsPOST
    rw [h]
    simp only [if_pos hgt]

/-- Witness for C10: a payment of 400 against an invoice whose
`dueAmount` is 300 is rejected with 400, and a payment against an
unknown invoice id is rejected with 404. -/
theorem paymentsPOST_guards_witness :
    paymentsPOST [exInvoiceB] "user-1"
        { invoiceId := "inv-B", amount := 400, paymentDate := dayTs 20366 } = (400, none) ∧
    paymentsPOST [exInvoiceB] "user-1"
        { invoiceId := "inv-Z", amount := 10, paymentDate := dayTs 20366 } = (404, none) := by
  constructor
  · exact (paymentsPOST_guards [exInvoiceB] "user-1"
      { invoiceId := "inv-B", amount := 400, paymentDate := dayTs 20366 }).2
        exInvoiceB (by decide) (by decide)
  · exact (paymentsPOST_guards [exInvoiceB] "user-1"
      { invoiceId := "inv-Z", amount := 10, paymentDate := dayTs 20366 }).1 (by decide)

theorem sum_map_add_distrib (l : List α) (f g : α → Money) :
    (l.map (fun a => f a + g a)).sum = (l.map f).sum + (l.map g).sum := by
  induction l with
  | nil => simp
  | cons x xs ih => simp [ih]; ring

theorem sum_map_sub_distrib (l : List α) (f g : α → Money) :
    (l.map (fun a => f a - g a)).sum = (l.map f).sum - (l.map g).sum := by
  induction l with
  | nil => simp
  | cons x xs ih => simp [ih]; ring

theorem sum_map_flatMap (l : List α) (f : α → List β) (g : β → Money) :
    ((l.flatMap f).map g).sum = (l.map (fun a => ((f a).map g).sum)).sum := by
  induction l with
  | nil => simp
  | cons x xs ih => simp [ih]

theorem zipWith_setBalance_map (rows : List LedgerRow) (bs : List Money)
    (f : LedgerRow → α) (hf : ∀ r b, f { r with balance := b } = f r)
    (h : rows.length ≤ bs.length) :
    (List.zipWith (fun r b => { r with balance := b }) rows bs).map f = rows.map f := by
  induction rows generalizing bs with
  | nil => simp
  | cons r rest ih =>
    cases bs with
    | nil => simp at h
    | cons b brest =>
      simp only [List.zipWith_cons_cons, List.map_cons, hf]
      rw [ih brest (by simpa using h)]

theorem zipWith_setBalance_balances (rows : List LedgerRow) (bs : List Money)
    (h : rows.length = bs.length) :
    (List.zipWith (fun r b => { r with balance := b }) rows bs).map
        (fun r => r.balance) = bs := by
  induction rows generalizing bs with
  | nil =>
    cases bs with
    | nil => simp
    | cons b brest => simp at h
  | cons r rest ih =>
    cases bs with
    | nil => simp at h
    | cons b brest =>
      simp only [List.zipWith_cons_cons, List.map_cons]
      rw [ih brest (by simpa using h)]

theorem calculateRunningBalance_length (l : List DebitCredit) :
    (calculateRunningBalance l).length = l.length :=
  runningBalanceAux_length 0 l

theorem attachBalances_map (rows : List LedgerRow) (f : LedgerRow → α)
    (hf : ∀ r b, f { r with balance := b } = f r) :
    (attachBalances rows).map f = rows.map f := by
  unfold attachBalances
  exact zipWith_setBalance_map rows _ f hf
    (by rw [calculateRunningBalance_length, List.length_map])

theorem attachBalances_balances (rows : List LedgerRow) :
    (attachBalances rows).map (fun r => r.balance)
      = calculateRunningBalance (rows.map toDebitCredit) := by
  unfold attachBalances
  exact zipWith_setBalance_balances rows _
    (by rw [calculateRunningBalance_length, List.length_map])

theorem netTotal_map_toDC (l : List LedgerRow) :
    netTotal (l.map toDebitCredit)
      = (l.map (fun r => r.debit)).sum - (l.map (fun r => r.credit)).sum := by
  unfold netTotal
  rw [List.map_map]
  exact sum_map_sub_distrib l (fun r => r.debit) (fun r => r.credit)

theorem totalPaidFromRecords_cons (p : Payment) (ps : List Payment) (inv : Invoice) :
    totalPaidFromRecords (p :: ps) inv
      = (if p.invoiceId._id = inv._id then p.amount else 0)
          + totalPaidFromRecords ps inv := by
  unfold totalPaidFromRecords
  rw [List.filter_cons]
  by_cases h : p.invoiceId._id = inv._id
  · simp [h]
  · simp [h]

theorem sum_indicator_zero (invoices : List Invoice) (x : String) (a : Money)
    (hx : x ∉ invoices.map (fun inv => inv._id)) :
    (invoices.map (fun inv => if x = inv._id then a else 0)).sum = 0 := by
  induction invoices with
  | nil => simp
  | cons inv rest ih =>
    simp only [List.map_cons, List.mem_cons] at hx ⊢
    have h1 : ¬ x = inv._id := fun hEq => hx (Or.inl hEq)
    simp only [List.sum_cons, if_neg h1]
    rw [ih (fun hm => hx (Or.inr hm))]
    ring

theorem sum_indicator_one (invoices : List Invoice) (x : String) (a : Money)
    (hids : (invoices.map (fun inv => inv._id)).Nodup)
    (hmem : ∃ inv ∈ invoices, x = inv._id) :
    (invoices.map (fun inv => if x = inv._id then a else 0)).sum = a := by
  induction invoices with
  | nil => simp at hmem
  | cons inv rest ih =>
    simp only [List.map_cons, List.nodup_cons] at hids
    by_cases h1 : x = inv._id
    · simp only [List.map_cons, List.sum_cons, if_pos h1]
      rw [sum_indicator_zero rest x a (h1 ▸ hids.1)]
      ring
    · simp only [List.map_cons, List.sum_cons, if_neg h1]
      rcases hmem with ⟨inv2, hm, hx2⟩
      rcases List.mem_cons.mp hm with rfl | hm2
      · exact absurd hx2 h1
      · rw [ih hids.2 ⟨inv2, hm2, hx2⟩]
        ring

theorem sum_totalPaidFromRecords (invoices : List Invoice) (payments : List Payment)
    (hids : (invoices.map (fun inv => inv._id)).Nodup)
    (hbelong : ∀ p ∈ payments, ∃ inv ∈ invoices, p.invoiceId._id = inv._id) :
    (invoices.map (totalPaidFromRecords payments)).sum
      = (payments.map (fun p => p.amount)).sum := by
  induction payments with
  | nil =>
    have h0 : invoices.map (totalPaidFromRecords []) = invoices.map (fun _ => (0 : Money)) := by
      apply List.map_congr_left
      intro inv _
      simp [totalPaidFromRecords]
    simp [h0]
  | cons p ps ih =>
    have hstep : (invoices.map (totalPaidFromRecords (p :: ps))).sum
        = (invoices.map (fun inv => if p.invoiceId._id = inv._id then p.amount else 0)).sum
            + (invoices.map (totalPaidFromRecords ps)).sum := by
      have : invoices.map (totalPaidFromRecords (p :: ps))
          = invoices.map (fun inv =>
              (if p.invoiceId._id = inv._id then p.amount else 0)
                + totalPaidFromRecords ps inv) := by
        apply List.map_congr_left
        intro inv _
        exact totalPaidFromRecords_cons p ps inv
      rw [this]
      exact sum_map_add_distrib invoices _ _
    rw [hstep, sum_indicator_one invoices (p.invoiceId._id) p.amount hids
          (hbelong p (by simp)),
        ih (fun q hq => hbelong q (by simp [hq]))]
    simp

theorem recon_shortfall_sum (invoices : List Invoice) (payments : List Payment)
    (hle : ∀ inv ∈ invoices, totalPaidFromRecords payments inv ≤ inv.paidAmount) :
    (((invoices.filter
        (fun inv => decide (totalPaidFromRecords payments inv < inv.paidAmount))).map
          (fun inv => inv.paidAmount - totalPaidFromRecords payments inv)).sum)
      = (invoices.map (fun inv => inv.paidAmount)).sum
          - (invoices.map (totalPaidFromRecords payments)).sum := by
  induction invoices with
  | nil => simp
  | cons inv rest ih =>
    have hrest := ih (fun i hi => hle i (by simp [hi]))
    rw [List.filter_cons]
    by_cases hc : totalPaidFromRecords payments inv < inv.paidAmount
    · rw [if_pos (by simpa using hc)]
      simp only [List.map_cons, List.sum_cons]
      rw [hrest]
      ring
    · have heq : inv.paidAmount = totalPaidFromRecords payments inv :=
        le_antisymm (not_lt.mp hc) (hle inv (by simp))
      rw [if_neg (by simpa using hc)]
      rw [hrest]
      simp only [List.map_cons, List.sum_cons]
      rw [heq]
      ring

theorem ledgerEntries_last_balance (invoices : List Invoice) (payments : List Payment)
    (e : LedgerRow) (he : (ledgerEntries invoices payments).getLast? = some e) :
    e.balance = netTotal ((sortedLedgerEntries invoices payments).map toDebitCredit) := by
  have hne : (sortedLedgerEntries invoices payments).map toDebitCredit ≠ [] := by
    intro h0
    have h0' : sortedLedgerEntries invoices payments = [] := by
      cases hS : sortedLedgerEntries invoices payments with
      | nil => rfl
      | cons x xs => rw [hS] at h0; simp at h0
    rw [ledgerEntries, h0'] at he
    simp [attachBalances, calculateRunningBalance, runningBalanceAux] at he
  have h1 : ((ledgerEntries invoices payments).map (fun r => r.balance)).getLast?
      = some e.balance := by
    rw [List.getLast?_map, he]
    rfl
  rw [ledgerEntries, attachBalances_balances, calculateRunningBalance,
      runningBalanceAux_getLast? _ 0 hne] at h1
  have h2 := Option.some.inj h1
  rw [← h2, zero_add]

/-- C5.  The running balance written on the last ledger entry equals the
sum of all entries' debits minus the sum of all entries' credits; and
when every payment belongs to exactly one fetched invoice, the
per-invoice payment totals do not exceed the stored `paidAmount` (so
explicit payments plus the synthesized reconciliation credits account
exactly for each `paidAmount`), and each invoice's `totalAmount` is the
sum of its line amounts (the data-model invariant), the final balance
also equals the sum of the invoices' `totalAmount` minus the sum of
their `paidAmount`. -/
theorem final_balance_correct (invoices : List Invoice) (payments : List Payment) :
    (∀ e, (ledgerEntries invoices payments).getLast? = some e →
        e.balance
          = ((ledgerEntries invoices payments).map (fun r => r.debit)).sum
              - ((ledgerEntries invoices payments).map (fun r => r.credit)).sum) ∧
    ((invoices.map (fun inv => inv._id)).Nodup →
      (∀ p ∈ payments, ∃ inv ∈ invoices, p.invoiceId._id = inv._id) →
      (∀ inv ∈ invoices, totalPaidFromRecords payments inv ≤ inv.paidAmount) →
      (∀ inv ∈ invoices, inv.totalAmount = (inv.items.map (fun it => it.amount)).sum) →
      ∀ e, (ledgerEntries invoices payments).getLast? = some e →
        e.balance = (invoices.map (fun inv => inv.totalAmount)).sum
            - (invoices.map (fun inv => inv.paidAmount)).sum) := by
  have hd : (ledgerEntries invoices payments).map (fun r => r.debit)
      = (sortedLedgerEntries invoices payments).map (fun r => r.debit) :=
    attachBalances_map _ _ (fun r b => rfl)
  have hc : (ledgerEntries invoices payments).map (fun r => r.credit)
      = (sortedLedgerEntries invoices payments).map (fun r => r.credit) :=
    attachBalances_map _ _ (fun r b => rfl)
  constructor
  · intro e he
    rw [ledgerEntries_last_balance invoices payments e he, netTotal_map_toDC, hd, hc]
  · intro hids hbelong hle htot e he
    rw [ledgerEntries_last_balance invoices payments e he, netTotal_map_toDC]
    have hpermd : ((sortedLedgerEntries invoices payments).map (fun r => r.debit)).sum
        = ((buildLedgerEntries invoices payments).map (fun r => r.debit)).sum :=
      ((sortKeyed_perm rowKey (buildLedgerEntries invoices payments)).map _).sum_eq
    have hpermc : ((sortedLedgerEntries invoices payments).map (fun r => r.credit)).sum
        = ((buildLedgerEntries invoices payments).map (fun r => r.credit)).sum :=
      ((sortKeyed_perm rowKey (buildLedgerEntries invoices payments)).map _).sum_eq
    rw [hpermd, hpermc]
    unfold buildLedgerEntries
    simp only [List.map_append, List.sum_append]
    have hda : ((invoiceRows invoices).map (fun r => r.debit)).sum
        = (invoices.map (fun inv => inv.totalAmount)).sum := by
      unfold invoiceRows
      rw [sum_map_flatMap]
      have hcong : invoices.map
            (fun inv => ((inv.items.map (invoiceItemRow inv)).map (fun r => r.debit)).sum)
          = invoices.map (fun inv => inv.totalAmount) := by
        apply List.map_congr_left
        intro inv hm
        rw [List.map_map, htot inv hm]
        rfl
      rw [hcong]
    have hdb : ((payments.map paymentRow).map (fun r => r.debit)).sum = 0 := by
      rw [List.map_map]
      have : payments.map ((fun r => r.debit) ∘ paymentRow)
          = payments.map (fun _ => (0 : Money)) :=
        List.map_congr_left (fun p _ => rfl)
      rw [this]
      simp
    have hdc : ((reconRows invoices payments).map (fun r => r.debit)).sum = 0 := by
      unfold reconRows
      rw [List.map_map]
      have : ((invoices.filter
            (fun inv => decide (totalPaidFromRecords payments inv < inv.paidAmount))).map
              ((fun r => r.debit) ∘ reconRow payments))
          = (invoices.filter
            (fun inv => decide (totalPaidFromRecords payments inv < inv.paidAmount))).map
              (fun _ => (0 : Money)) :=
        List.map_congr_left (fun inv _ => rfl)
      rw [this]
      simp
    have hca : ((invoiceRows invoices).map (fun r => r.credit)).sum = 0 := by
      unfold invoiceRows
      rw [sum_map_flatMap]
      have hcong : invoices.map
            (fun inv => ((inv.items.map (invoiceItemRow inv)).map (fun r => r.credit)).sum)
          = invoices.map (fun _ => (0 : Money)) := by
        apply List.map_congr_left
        intro inv _
        rw [List.map_map]
        have : inv.items.map ((fun r => r.credit) ∘ invoiceItemRow inv)
            = inv.items.map (fun _ => (0 : Money)) :=
          List.map_congr_left (fun it _ => rfl)
        rw [this]
        simp
      rw [hcong]
      simp
    have hcb : ((payments.map paymentRow).map (fun r => r.credit)).sum
        = (payments.map (fun p => p.amount)).sum := by
      rw [List.map_map]
      rfl
    have hcc : ((reconRows invoices payments).map (fun r => r.credit)).sum
        = (invoices.map (fun inv => inv.paidAmount)).sum
            - (invoices.map (totalPaidFromRecords payments)).sum := by
      unfold reconRows
      rw [List.map_map]
      have : ((invoices.filter
            (fun inv => decide (totalPaidFromRecords payments inv < inv.paidAmount))).map
              ((fun r => r.credit) ∘ reconRow payments))
          = (invoices.filter
            (fun inv => decide (totalPaidFromRecords payments inv < inv.paidAmount))).map
              (fun inv => inv.paidAmount - totalPaidFromRecords payments inv) :=
        List.map_congr_left (fun inv _ => rfl)
      rw [this]
      exact recon_shortfall_sum invoices payments hle
    rw [hda, hdb, hdc, hca, hcb, hcc,
        ← sum_totalPaidFromRecords invoices payments hids hbelong]
    ring

unseal Rat.sub Rat.add Rat.mul in
theorem final_balance_correct_witness :
    ((ledgerEntries [exInvoiceA, exInvoiceB] [exPaymentB]).getLast?.map
        (fun e => e.balance)) = some 300 := by
  have h := (final_balance_correct [exInvoiceA, exInvoiceB] [exPaymentB]).2
    (by decide) (by decide) (by decide) (by decide)
  cases hE : (ledgerEntries [exInvoiceA, exInvoiceB] [exPaymentB]).getLast? with
  | none => exact absurd hE (by decide)
  | some e =>
    have hb := h e hE
    show some e.balance = some 300
    rw [hb]
    decide

unseal Rat.sub Rat.add Rat.mul in
/-- C6 (failing-input evaluation).  When the area matches zero
customers, `customerIds` is empty, so the route builds the payment query
without the `invoiceId` filter: payments of unrelated customers are
fetched and become ledger entries.  On a database holding one payment of
an unmatched customer, the area query returns a ledger with one entry
(summary totals over the zero fetched invoices are 0, but
`totalEntries = 1` and `entries` is not empty), contradicting the
claimed empty ledger. -/
theorem emptyArea_leaks_payments :
    (ledgerGET exDbNorth exQuerySouth).1
        = Except.ok (ledgerResponseOf [] [exPaymentOther]) ∧
    (ledgerResponseOf [] [exPaymentOther]).entries ≠ [] ∧
    (ledgerResponseOf [] [exPaymentOther]).summary.totalEntries = 1 ∧
    (ledgerResponseOf [] [exPaymentOther]).summary.totalCredit = 0 ∧
    (ledgerResponseOf [] [exPaymentOther]).summary.totalPaid = 0 ∧
    (ledgerResponseOf [] [exPaymentOther]).entries.map (fun r => r.credit) = [50] := by
  decide

theorem digitChar_isDigit : ∀ m, m < 10 → (Nat.digitChar m).isDigit = true := by decide

theorem toDigitsCore_digits (fuel : Nat) :
    ∀ (n : Nat) (acc : List Char), (∀ c ∈ acc, c.isDigit = true) →
      ∀ c ∈ Nat.toDigitsCore 10 fuel n acc, c.isDigit = true := by
  induction fuel with
  | zero =>
    intro n acc hacc c hc
    simpa [Nat.toDigitsCore] using hacc c hc
  | succ f ih =>
    intro n acc hacc c hc
    simp only [Nat.toDigitsCore] at hc
    have hdig : (Nat.digitChar (n % 10)).isDigit = true :=
      digitChar_isDigit (n % 10) (Nat.mod_lt n (by norm_num))
    by_cases h0 : n / 10 = 0
    · rw [if_pos h0] at hc
      rcases List.mem_cons.mp hc with rfl | hc
      · exact hdig
      · exact hacc c hc
    · rw [if_neg h0] at hc
      refine ih (n / 10) (Nat.digitChar (n % 10) :: acc) ?_ c hc
      intro d hd
      rcases List.mem_cons.mp hd with rfl | hd
      · exact hdig
      · exact hacc d hd

theorem toDigitsCore_length_le (fuel : Nat) :
    ∀ (n k : Nat) (acc : List Char), 1 ≤ k → n < 10 ^ k →
      (Nat.toDigitsCore 10 fuel n acc).length ≤ k + acc.length := by
  induction fuel with
  | zero =>
    intro n k acc hk hn
    simp only [Nat.toDigitsCore]
    omega
  | succ f ih =>
    intro n k acc hk hn
    simp only [Nat.toDigitsCore]
    by_cases h0 : n / 10 = 0
    · rw [if_pos h0]
      simp only [List.length_cons]
      omega
    · rw [if_neg h0]
      have hk2 : 2 ≤ k := by
        by_contra hlt
        have hk1 : k = 1 := by omega
        subst hk1
        have : n < 10 := by simpa using hn
        exact h0 (Nat.div_eq_of_lt this)
      have hdiv : n / 10 < 10 ^ (k - 1) := by
        have hpow : 10 ^ (k - 1) * 10 = 10 ^ k := by
          rw [← pow_succ]
          congr 1
          omega
        rw [Nat.div_lt_iff_lt_mul (by norm_num : (0:Nat) < 10), hpow]
        exact hn
      have := ih (n / 10) (k - 1) (Nat.digitChar (n % 10) :: acc) (by omega) hdiv
      simp only [List.length_cons] at this
      omega

theorem toDigitsCore_length_ge (fuel : Nat) :
    ∀ (n : Nat) (acc : List Char), 1 ≤ fuel →
      acc.length + 1 ≤ (Nat.toDigitsCore 10 fuel n acc).length := by
  induction fuel with
  | zero => intro n acc h; omega
  | succ f ih =>
    intro n acc _
    simp only [Nat.toDigitsCore]
    by_cases h0 : n / 10 = 0
    · rw [if_pos h0]
      simp
    · rw [if_neg h0]
      cases f with
      | zero => simp [Nat.toDigitsCore]
      | succ f2 =>
        have := ih (n / 10) (Nat.digitChar (n % 10) :: acc) (by omega)
        simp only [List.length_cons] at this
        omega

theorem toDigitsCore_length_ge_two (fuel n : Nat) (acc : List Char)
    (hf : 2 ≤ fuel) (hn : 10 ≤ n) :
    acc.length + 2 ≤ (Nat.toDigitsCore 10 fuel n acc).length := by
  cases fuel with
  | zero => omega
  | succ f =>
    simp only [Nat.toDigitsCore]
    have h0 : ¬ n / 10 = 0 := by
      intro h
      rw [Nat.div_eq_zero_iff (by norm_num)] at h
      omega
    rw [if_neg h0]
    have := toDigitsCore_length_ge f (n / 10) (Nat.digitChar (n % 10) :: acc) (by omega)
    simp only [List.length_cons] at this
    omega

theorem natToString_digits (n : Nat) : ∀ c ∈ (natToString n).data, c.isDigit = true := by
  intro c hc
  exact toDigitsCore_digits (n + 1) n [] (by simp) c hc

theorem natToString_length_le (n k : Nat) (hk : 1 ≤ k) (hn : n < 10 ^ k) :
    (natToString n).data.length ≤ k := by
  have := toDigitsCore_length_le (n + 1) n k [] hk hn
  simpa [natToString, Nat.toDigits] using this

theorem natToString_length_ge_two (n : Nat) (hn : 10 ≤ n) :
    2 ≤ (natToString n).data.length := by
  have := toDigitsCore_length_ge_two (n + 1) n [] (by omega) hn
  simpa [natToString, Nat.toDigits] using this

theorem padStart_length (n : Nat) (c : Char) (s : String) (h : s.data.length ≤ n) :
    (padStart n c s).data.length = n := by
  show (List.replicate (n - s.data.length) c ++ s.data).length = n
  rw [List.length_append, List.length_replicate]
  omega

theorem padStart_digits (n : Nat) (s : String)
    (hs : ∀ c ∈ s.data, c.isDigit = true) :
    ∀ c ∈ (padStart n '0' s).data, c.isDigit = true := by
  intro c hc
  rcases List.mem_append.mp hc with hc | hc
  · rw [List.eq_of_mem_replicate hc]
    decide
  · exact hs c hc

theorem sliceFromEnd_length (n : Nat) (s : String) (h : n ≤ s.data.length) :
    (sliceFromEnd n s).data.length = n := by
  show (s.data.drop (s.data.length - n)).length = n
  rw [List.length_drop]
  omega

theorem sliceFromEnd_digits (n : Nat) (s : String)
    (hs : ∀ c ∈ s.data, c.isDigit = true) :
    ∀ c ∈ (sliceFromEnd n s).data, c.isDigit = true :=
  fun c hc => hs c (List.drop_subset _ _ hc)

/-- C9.  Every generated invoice number is the fixed prefix `110100`
followed by exactly ten decimal digits: the last two digits of the
year's decimal form, the zero-padded 2-digit month and day, and the
zero-padded 4-digit random suffix.  (Uniqueness is not modelled: the
output is a pure function of the date and the random draw, so two calls
with equal draws collide.) -/
theorem generateInvoiceNumber_format (fullYear monthIndex dayOfMonth rnd : Nat)
    (hy : 10 ≤ fullYear) (hm : monthIndex ≤ 11) (hd : dayOfMonth ≤ 31) (hr : rnd ≤ 9999) :
    ∃ ds : List Char,
      (generateInvoiceNumber fullYear monthIndex dayOfMonth rnd).data
          = "110100".data ++ ds ∧ ds.length = 10 ∧ ∀ c ∈ ds, c.isDigit = true := by
  refine ⟨(sliceFromEnd 2 (natToString fullYear)).data
      ++ ((padStart 2 '0' (natToString (monthIndex + 1))).data
      ++ ((padStart 2 '0' (natToString dayOfMonth)).data
      ++ (padStart 4 '0' (natToString rnd)).data)), ?_, ?_, ?_⟩
  · simp [generateInvoiceNumber]
  · have hyl : (sliceFromEnd 2 (natToString fullYear)).data.length = 2 :=
      sliceFromEnd_length 2 _ (natToString_length_ge_two fullYear hy)
    have hml : (padStart 2 '0' (natToString (monthIndex + 1))).data.length = 2 :=
      padStart_length 2 '0' _
        (natToString_length_le (monthIndex + 1) 2 (by norm_num) (by norm_num; omega))
    have hdl : (padStart 2 '0' (natToString dayOfMonth)).data.length = 2 :=
      padStart_length 2 '0' _
        (natToString_length_le dayOfMonth 2 (by norm_num) (by norm_num; omega))
    have hrl : (padStart 4 '0' (natToString rnd)).data.length = 4 :=
      padStart_length 4 '0' _
        (natToString_length_le rnd 4 (by norm_num) (by norm_num; omega))
    simp [List.length_append, hyl, hml, hdl, hrl]
  · intro c hc
    rcases List.mem_append.mp hc with hc | hc
    · exact sliceFromEnd_digits 2 _ (natToString_digits fullYear) c hc
    rcases List.mem_append.mp hc with hc | hc
    · exact padStart_digits 2 _ (natToString_digits (monthIndex + 1)) c hc
    rcases List.mem_append.mp hc with hc | hc
    · exact padStart_digits 2 _ (natToString_digits dayOfMonth) c hc
    · exact padStart_digits 4 _ (natToString_digits rnd) c hc

/-- Witness for C9 at the concrete date 2025-10-11 with random draw 42. -/
theorem generateInvoiceNumber_format_witness :
    ∃ ds : List Char,
      (generateInvoiceNumber 2025 9 11 42).data = "110100".data ++ ds ∧
      ds.length = 10 ∧ ∀ c ∈ ds, c.isDigit = true :=
  generateInvoiceNumber_format 2025 9 11 42 (by decide) (by decide) (by decide) (by decide)

theorem mem_enum_eq_get (l : List α) (p : Nat × α) (hp : p ∈ l.enum) :
    ∃ h : p.1 < l.length, p.2 = l.get ⟨p.1, h⟩ := by
  obtain ⟨k, hk⟩ := List.mem_iff_get.mp hp
  have hkl : k.1 < l.length := by
    have := k.2
    simpa [List.enum_eq_enumFrom] using this
  rcases k with ⟨kv, hkv⟩
  have : l.enum.get ⟨kv, hkv⟩ = (kv, l.get ⟨kv, hkl⟩) := by
    simp [List.enum_eq_enumFrom, List.get_eq_getElem, List.getElem_enumFrom]
  rw [this] at hk
  rcases p with ⟨pi, px⟩
  cases hk
  exact ⟨hkl, rfl⟩

theorem sorted_filter_decomp (key : α → Int) (l : List α) (K : Int)
    (h : l.Pairwise (fun a b => key a ≤ key b)) :
    l = l.filter (fun x => decide (key x < K))
      ++ l.filter (fun x => key x == K)
      ++ l.filter (fun x => decide (K < key x)) := by
  induction l with
  | nil => rfl
  | cons e xs ih =>
    rcases h with _ | ⟨he, hxs⟩
    have ihx := ih hxs
    rcases lt_trichotomy (key e) K with hlt | heq | hgt
    · have fl : (e :: xs).filter (fun x => decide (key x < K))
          = e :: xs.filter (fun x => decide (key x < K)) := by
        rw [List.filter_cons, if_pos (by simpa using hlt)]
      have fe : (e :: xs).filter (fun x => key x == K)
          = xs.filter (fun x => key x == K) := by
        rw [List.filter_cons, if_neg (by simp; omega)]
      have fg : (e :: xs).filter (fun x => decide (K < key x))
          = xs.filter (fun x => decide (K < key x)) := by
        rw [List.filter_cons, if_neg (by simp; omega)]
      rw [fl, fe, fg, List.cons_append, List.cons_append]
      exact congrArg (e :: ·) ihx
    · have hnil : xs.filter (fun x => decide (key x < K)) = [] := by
        rw [List.filter_eq_nil_iff]
        intro x hx
        have := he x hx
        simp
        omega
      have fl : (e :: xs).filter (fun x => decide (key x < K)) = [] := by
        rw [List.filter_cons, if_neg (by simp; omega), hnil]
      have fe : (e :: xs).filter (fun x => key x == K)
          = e :: xs.filter (fun x => key x == K) := by
        rw [List.filter_cons, if_pos (by simp [heq])]
      have fg : (e :: xs).filter (fun x => decide (K < key x))
          = xs.filter (fun x => decide (K < key x)) := by
        rw [List.filter_cons, if_neg (by simp; omega)]
      rw [fl, fe, fg, List.nil_append, List.cons_append]
      have ihx2 := ihx
      rw [hnil, List.nil_append] at ihx2
      exact congrArg (e :: ·) ihx2
    · have hnil1 : xs.filter (fun x => decide (key x < K)) = [] := by
        rw [List.filter_eq_nil_iff]
        intro x hx
        have := he x hx
        simp
        omega
      have hnil2 : xs.filter (fun x => key x == K) = [] := by
        rw [List.filter_eq_nil_iff]
        intro x hx
        have := he x hx
        simp
        omega
      have fl : (e :: xs).filter (fun x => decide (key x < K)) = [] := by
        rw [List.filter_cons, if_neg (by simp; omega), hnil1]
      have fe : (e :: xs).filter (fun x => key x == K) = [] := by
        rw [List.filter_cons, if_neg (by simp; omega), hnil2]
      have fg : (e :: xs).filter (fun x => decide (K < key x))
          = e :: xs.filter (fun x => decide (K < key x)) := by
        rw [List.filter_cons, if_pos (by simpa using hgt)]
      rw [fl, fe, fg, List.nil_append, List.nil_append]
      have ihx2 := ihx
      rw [hnil1, hnil2, List.nil_append, List.nil_append] at ihx2
      exact congrArg (e :: ·) ihx2

theorem flatMap_single_block {γ β : Type} (i : Nat) (isI : β → Bool)
    (g : Nat × γ → List β) :
    ∀ ps : List (Nat × γ),
    (∀ p ∈ ps, p.1 ≠ i → ∀ b ∈ g p, isI b = false) →
    (∀ p ∈ ps, p.1 = i → ∀ b ∈ g p, isI b = true) →
    ((ps.map Prod.fst).count i ≤ 1) →
    ∃ P Q, ps.flatMap g = P ++ (ps.flatMap g).filter isI ++ Q ∧
      (∀ x ∈ P, isI x = false) ∧ (∀ x ∈ Q, isI x = false) := by
  intro ps
  induction ps with
  | nil =>
    intro _ _ _
    exact ⟨[], [], rfl, by simp, by simp⟩
  | cons p rest ih =>
    intro hA hB hcount
    by_cases hpi : p.1 = i
    · have hnotin : i ∉ rest.map Prod.fst := by
        intro hmem
        have h0 : (rest.map Prod.fst).count i = 0 := by
          simp only [List.map_cons, List.count_cons] at hcount
          simp only [hpi] at hcount
          simp at hcount
          omega
        rw [List.count_eq_zero] at h0
        exact h0 hmem
      have hrest_ne : ∀ q ∈ rest, q.1 ≠ i := by
        intro q hq hqi
        exact hnotin (List.mem_map.mpr ⟨q, hq, hqi⟩)
      have hall : ∀ b ∈ g p, isI b = true := hB p (by simp) hpi
      have hrest_free : ∀ x ∈ rest.flatMap g, isI x = false := by
        intro x hx
        obtain ⟨q, hq, hxq⟩ := List.mem_flatMap.mp hx
        exact hA q (by simp [hq]) (hrest_ne q hq) x hxq
      refine ⟨[], rest.flatMap g, ?_, by simp, hrest_free⟩
      have hfilter : ((p :: rest).flatMap g).filter isI = g p := by
        rw [List.flatMap_cons, List.filter_append]
        rw [List.filter_eq_self.mpr hall]
        rw [List.filter_eq_nil_iff.mpr (by intro x hx; simp [hrest_free x hx])]
        simp
      rw [hfilter, List.flatMap_cons, List.nil_append]
    · have hfree : ∀ b ∈ g p, isI b = false := hA p (by simp) hpi
      have hcount2 : ((rest.map Prod.fst).count i ≤ 1) := by
        simp only [List.map_cons, List.count_cons] at hcount
        omega
      obtain ⟨P, Q, hdecomp, hP, hQ⟩ := ih
        (fun q hq => hA q (by simp [hq]))
        (fun q hq => hB q (by simp [hq])) hcount2
      refine ⟨g p ++ P, Q, ?_, ?_, hQ⟩
      · rw [List.flatMap_cons, List.filter_append,
          List.filter_eq_nil_iff.mpr (by intro x hx; simp [hfree x hx]),
          List.nil_append]
        calc g p ++ rest.flatMap g
            = g p ++ (P ++ (rest.flatMap g).filter isI ++ Q) := by rw [← hdecomp]
          _ = g p ++ P ++ (rest.flatMap g).filter isI ++ Q := by
              simp [List.append_assoc]
      · intro x hx
        rcases List.mem_append.mp hx with hx | hx
        · exact hfree x hx
        · exact hP x hx

theorem taggedBuild_parts (invoices : List Invoice) (payments : List Payment) :
    taggedBuild invoices payments
      = taggedItemRows invoices ++ taggedPayRows payments
          ++ taggedReconRows invoices payments := rfl

theorem taggedItemRows_tags (invoices : List Invoice) :
    ∀ x ∈ taggedItemRows invoices,
      ∃ i j, ∃ hi : i < invoices.length,
        x.1 = RowOrigin.item i j ∧ x.2.dateObj = (invoices.get ⟨i, hi⟩).invoiceDate := by
  intro x hx
  simp only [taggedItemRows, List.mem_flatMap, List.mem_map] at hx
  obtain ⟨p, hp, q, _, rfl⟩ := hx
  obtain ⟨hi, hpe⟩ := mem_enum_eq_get invoices p hp
  exact ⟨p.1, q.1, hi, rfl, by rw [← hpe]; rfl⟩

theorem taggedPayRows_tags (payments : List Payment) :
    ∀ x ∈ taggedPayRows payments, ∃ k, x.1 = RowOrigin.pay k := by
  intro x hx
  simp only [taggedPayRows, List.mem_map] at hx
  obtain ⟨p, _, rfl⟩ := hx
  exact ⟨p.1, rfl⟩

theorem taggedReconRows_tags (invoices : List Invoice) (payments : List Payment) :
    ∀ x ∈ taggedReconRows invoices payments, ∃ k, x.1 = RowOrigin.recon k := by
  intro x hx
  simp only [taggedReconRows, List.mem_map] at hx
  obtain ⟨p, _, rfl⟩ := hx
  exact ⟨p.1, rfl⟩

theorem isItemOf_item (i i' j : Nat) :
    isItemOf i (RowOrigin.item i' j) = (i' == i) := rfl

theorem taggedBuild_item_date (invoices : List Invoice) (payments : List Payment) :
    ∀ x ∈ taggedBuild invoices payments, ∀ i, isItemOf i x.1 = true →
      ∃ hi : i < invoices.length,
        x.2.dateObj = (invoices.get ⟨i, hi⟩).invoiceDate := by
  intro x hx i hIx
  rw [taggedBuild_parts] at hx
  rcases List.mem_append.mp hx with hx | hx
  · rcases List.mem_append.mp hx with hx | hx
    · obtain ⟨i', j, hi', htag, hdate⟩ := taggedItemRows_tags invoices x hx
      rw [htag, isItemOf_item] at hIx
      have : i' = i := by simpa using hIx
      subst this
      exact ⟨hi', hdate⟩
    · obtain ⟨k, htag⟩ := taggedPayRows_tags payments x hx
      rw [htag] at hIx
      simp [isItemOf] at hIx
  · obtain ⟨k, htag⟩ := taggedReconRows_tags invoices payments x hx
    rw [htag] at hIx
    simp [isItemOf] at hIx

theorem key_window (key : α → Int) (U W V : List α) (K : Int)
    (hU : ∀ x ∈ U, key x < K) (hV : ∀ x ∈ V, K < key x)
    (p : Nat) (hp : p < (U ++ W ++ V).length)
    (hkey : key ((U ++ W ++ V).get ⟨p, hp⟩) = K) :
    U.length ≤ p ∧ p < U.length + W.length ∧
      ∃ hw : p - U.length < W.length,
        (U ++ W ++ V).get ⟨p, hp⟩ = W.get ⟨p - U.length, hw⟩ := by
  have hUW : (U ++ W).length = U.length + W.length := by
    simp [List.length_append]
  have hlen : (U ++ W ++ V).length = U.length + W.length + V.length := by
    simp [List.length_append]
    omega
  have h1 : U.length ≤ p := by
    by_contra hlt
    push_neg at hlt
    have hgl : (U ++ W ++ V).get ⟨p, hp⟩ = U.get ⟨p, hlt⟩ := by
      simp only [List.get_eq_getElem]
      rw [List.getElem_append_left (by omega : p < (U ++ W).length),
        List.getElem_append_left hlt]
    have hmem : (U ++ W ++ V).get ⟨p, hp⟩ ∈ U := by
      rw [hgl]
      exact List.get_mem _ _ _
    have := hU _ hmem
    omega
  have h2 : p < U.length + W.length := by
    by_contra hge
    push_neg at hge
    have hgeUW : (U ++ W).length ≤ p := by omega
    have hpv : p - (U ++ W).length < V.length := by omega
    have hgl : (U ++ W ++ V).get ⟨p, hp⟩ = V.get ⟨p - (U ++ W).length, hpv⟩ := by
      simp only [List.get_eq_getElem]
      rw [List.getElem_append_right hgeUW]
    have hmem : (U ++ W ++ V).get ⟨p, hp⟩ ∈ V := by
      rw [hgl]
      exact List.get_mem _ _ _
    have := hV _ hmem
    omega
  have hw : p - U.length < W.length := by omega
  refine ⟨h1, h2, hw, ?_⟩
  have hpUW : p < (U ++ W).length := by omega
  simp only [List.get_eq_getElem]
  rw [List.getElem_append_left hpUW, List.getElem_append_right h1]

theorem two_part_index (A B : List α) (isI : α → Bool)
    (hA : ∀ x ∈ A, isI x = true) (hB : ∀ x ∈ B, isI x = false)
    (idx : Nat) (h : idx < (A ++ B).length) :
    (isI ((A ++ B).get ⟨idx, h⟩) = true ↔ idx < A.length) := by
  constructor
  · intro hI
    by_contra hge
    push_neg at hge
    have hbv : idx - A.length < B.length := by
      simp only [List.length_append] at h
      omega
    have : (A ++ B).get ⟨idx, h⟩ = B.get ⟨idx - A.length, hbv⟩ := by
      simp only [List.get_eq_getElem]
      rw [List.getElem_append_right hge]
    rw [this] at hI
    rw [hB _ (List.get_mem _ _ _)] at hI
    exact Bool.false_ne_true hI
  · intro hlt
    have : (A ++ B).get ⟨idx, h⟩ = A.get ⟨idx, hlt⟩ := by
      simp only [List.get_eq_getElem]
      rw [List.getElem_append_left hlt]
    rw [this]
    exact hA _ (List.get_mem _ _ _)

theorem enumFrom_map_comp_snd (h : β → γ) :
    ∀ (n : Nat) (l : List β), (l.enumFrom n).map (fun q => h q.2) = l.map h := by
  intro n l
  induction l generalizing n with
  | nil => rfl
  | cons x xs ih => simp only [List.enumFrom_cons, List.map_cons, ih]

theorem enumFrom_flatMap_comp_snd (h : β → List γ) :
    ∀ (n : Nat) (l : List β), (l.enumFrom n).flatMap (fun q => h q.2) = l.flatMap h := by
  intro n l
  induction l generalizing n with
  | nil => rfl
  | cons x xs ih => simp only [List.enumFrom_cons, List.flatMap_cons, ih]

theorem enumFrom_filter_map_comp_snd (c : β → Bool) (h : β → γ) :
    ∀ (n : Nat) (l : List β),
      ((l.enumFrom n).filter (fun q => c q.2)).map (fun q => h q.2) = (l.filter c).map h := by
  intro n l
  induction l generalizing n with
  | nil => rfl
  | cons x xs ih =>
    simp only [List.enumFrom_cons, List.filter_cons]
    by_cases hc : c x = true
    · simp only [hc, if_pos, List.map_cons, ih]
    · have hcf : c x = false := by simpa using hc
      simp only [hcf, Bool.false_eq_true, if_false]
      exact ih (n + 1)

theorem taggedItemRows_map_snd (invoices : List Invoice) :
    (taggedItemRows invoices).map Prod.snd = invoiceRows invoices := by
  unfold taggedItemRows invoiceRows
  rw [List.map_flatMap]
  have hfn : (fun p : Nat × Invoice =>
      ((p.2.items.enum.map
        (fun q => (RowOrigin.item p.1 q.1, invoiceItemRow p.2 q.2))).map Prod.snd))
      = fun p : Nat × Invoice => p.2.items.map (invoiceItemRow p.2) := by
    funext p
    rw [List.map_map]
    exact enumFrom_map_comp_snd (invoiceItemRow p.2) 0 p.2.items
  rw [hfn, List.enum_eq_enumFrom]
  exact enumFrom_flatMap_comp_snd (fun inv => inv.items.map (invoiceItemRow inv)) 0 invoices

theorem taggedPayRows_map_snd (payments : List Payment) :
    (taggedPayRows payments).map Prod.snd = payments.map paymentRow := by
  unfold taggedPayRows
  rw [List.map_map, List.enum_eq_enumFrom]
  exact enumFrom_map_comp_snd paymentRow 0 payments

theorem taggedReconRows_map_snd (invoices : List Invoice) (payments : List Payment) :
    (taggedReconRows invoices payments).map Prod.snd = reconRows invoices payments := by
  unfold taggedReconRows reconRows
  rw [List.map_map, List.enum_eq_enumFrom]
  exact enumFrom_filter_map_comp_snd
    (fun inv => decide (totalPaidFromRecords payments inv < inv.paidAmount))
    (reconRow payments) 0 invoices

theorem taggedBuild_map_snd (invoices : List Invoice) (payments : List Payment) :
    (taggedBuild invoices payments).map Prod.snd = buildLedgerEntries invoices payments := by
  rw [taggedBuild_parts]
  unfold buildLedgerEntries
  rw [List.map_append, List.map_append, taggedItemRows_map_snd, taggedPayRows_map_snd,
    taggedReconRows_map_snd]

theorem taggedSorted_map_snd (invoices : List Invoice) (payments : List Payment) :
    (taggedSorted invoices payments).map Prod.snd = sortedLedgerEntries invoices payments := by
  unfold taggedSorted sortedLedgerEntries
  rw [← taggedBuild_map_snd invoices payments]
  exact sortKeyed_map Prod.snd rowKey (taggedBuild invoices payments)

theorem item_rows_free_of_ge (invoices : List Invoice) (payments : List Payment) (i : Nat)
    (hi : ¬ i < invoices.length) :
    ∀ x ∈ taggedSorted invoices payments, isItemOf i x.1 = false := by
  intro x hx
  cases hb : isItemOf i x.1 with
  | false => rfl
  | true =>
    have hxB : x ∈ taggedBuild invoices payments :=
      (sortKeyed_perm taggedKey (taggedBuild invoices payments)).mem_iff.mp hx
    obtain ⟨hi', _⟩ := taggedBuild_item_date invoices payments x hxB i hb
    exact absurd hi' hi

theorem item_rows_adjacent (invoices : List Invoice) (payments : List Payment) (i : Nat) :
    ∃ P Q, taggedSorted invoices payments
        = P ++ (taggedSorted invoices payments).filter (fun x => isItemOf i x.1) ++ Q
      ∧ (∀ x ∈ P, isItemOf i x.1 = false) ∧ (∀ x ∈ Q, isItemOf i x.1 = false) := by
  by_cases hi : i < invoices.length
  · set K := (invoices.get ⟨i, hi⟩).invoiceDate with hKdef
    have hTB : ∀ x ∈ taggedSorted invoices payments, x ∈ taggedBuild invoices payments :=
      fun x hx => (sortKeyed_perm taggedKey (taggedBuild invoices payments)).mem_iff.mp hx
    have hsorted : (taggedSorted invoices payments).Pairwise
        (fun a b => taggedKey a ≤ taggedKey b) :=
      sortKeyed_sorted taggedKey (taggedBuild invoices payments)
    have hdecomp := sorted_filter_decomp taggedKey (taggedSorted invoices payments) K hsorted
    have hitemK : ∀ x ∈ taggedSorted invoices payments, isItemOf i x.1 = true →
        taggedKey x = K := by
      intro x hx hb
      obtain ⟨hi', hdate⟩ := taggedBuild_item_date invoices payments x (hTB x hx) i hb
      exact hdate
    have hUfree : ∀ x ∈ (taggedSorted invoices payments).filter
        (fun x => decide (taggedKey x < K)), isItemOf i x.1 = false := by
      intro x hx
      rcases List.mem_filter.mp hx with ⟨hxT, hxlt⟩
      cases hb : isItemOf i x.1 with
      | false => rfl
      | true =>
        have hk := hitemK x hxT hb
        simp only [decide_eq_true_eq] at hxlt
        rw [hk] at hxlt
        exact absurd hxlt (lt_irrefl K)
    have hVfree : ∀ x ∈ (taggedSorted invoices payments).filter
        (fun x => decide (K < taggedKey x)), isItemOf i x.1 = false := by
      intro x hx
      rcases List.mem_filter.mp hx with ⟨hxT, hxgt⟩
      cases hb : isItemOf i x.1 with
      | false => rfl
      | true =>
        have hk := hitemK x hxT hb
        simp only [decide_eq_true_eq] at hxgt
        rw [hk] at hxgt
        exact absurd hxgt (lt_irrefl K)
    have hstable : (taggedSorted invoices payments).filter (fun x => taggedKey x == K)
        = (taggedBuild invoices payments).filter (fun x => taggedKey x == K) :=
      sortKeyed_filter_key taggedKey (taggedBuild invoices payments) K
    have hsplit : (taggedBuild invoices payments).filter (fun x => taggedKey x == K)
        = (taggedItemRows invoices).filter (fun x => taggedKey x == K)
          ++ ((taggedPayRows payments).filter (fun x => taggedKey x == K)
          ++ (taggedReconRows invoices payments).filter (fun x => taggedKey x == K)) := by
      rw [taggedBuild_parts]
      simp [List.filter_append, List.append_assoc]
    have hf1 : (taggedItemRows invoices).filter (fun x => taggedKey x == K)
        = invoices.enum.flatMap (fun p =>
            (p.2.items.enum.map
              (fun q => (RowOrigin.item p.1 q.1, invoiceItemRow p.2 q.2))).filter
              (fun x => taggedKey x == K)) :=
      List.filter_flatMap _ _ _
    obtain ⟨P1, Q1, hblock, hP1, hQ1⟩ :=
      flatMap_single_block i (fun x : RowOrigin × LedgerRow => isItemOf i x.1)
        (fun p : Nat × Invoice =>
          (p.2.items.enum.map
            (fun q => (RowOrigin.item p.1 q.1, invoiceItemRow p.2 q.2))).filter
            (fun x => taggedKey x == K))
        invoices.enum
        (by
          intro p hp hne b hb
          rcases List.mem_filter.mp hb with ⟨hbm, _⟩
          obtain ⟨q, _, rfl⟩ := List.mem_map.mp hbm
          show isItemOf i (RowOrigin.item p.1 q.1) = false
          rw [isItemOf_item]
          simp [hne])
        (by
          intro p hp heq b hb
          rcases List.mem_filter.mp hb with ⟨hbm, _⟩
          obtain ⟨q, _, rfl⟩ := List.mem_map.mp hbm
          show isItemOf i (RowOrigin.item p.1 q.1) = true
          rw [isItemOf_item]
          simp [heq])
        (by
          have hnd := List.nodup_enum_map_fst invoices
          by_cases hm : i ∈ invoices.enum.map Prod.fst
          · have := List.count_eq_one_of_mem hnd hm
            omega
          · have := List.count_eq_zero_of_not_mem hm
            omega)
    have hpayfree : ∀ x ∈ (taggedPayRows payments).filter (fun x => taggedKey x == K),
        isItemOf i x.1 = false := by
      intro x hx
      obtain ⟨k, htag⟩ := taggedPayRows_tags payments x (List.mem_filter.mp hx).1
      rw [htag]
      rfl
    have hreconfree : ∀ x ∈ (taggedReconRows invoices payments).filter
        (fun x => taggedKey x == K), isItemOf i x.1 = false := by
      intro x hx
      obtain ⟨k, htag⟩ := taggedReconRows_tags invoices payments x (List.mem_filter.mp hx).1
      rw [htag]
      rfl
    have hblock2 : (taggedItemRows invoices).filter (fun x => taggedKey x == K)
        = P1 ++ ((taggedItemRows invoices).filter
            (fun x => taggedKey x == K)).filter (fun x => isItemOf i x.1) ++ Q1 := by
      rw [hf1]
      exact hblock
    have hnilU : ((taggedSorted invoices payments).filter
          (fun x => decide (taggedKey x < K))).filter (fun x => isItemOf i x.1) = [] :=
      List.filter_eq_nil_iff.mpr (fun x hx => by simp [hUfree x hx])
    have hnilV : ((taggedSorted invoices payments).filter
          (fun x => decide (K < taggedKey x))).filter (fun x => isItemOf i x.1) = [] :=
      List.filter_eq_nil_iff.mpr (fun x hx => by simp [hVfree x hx])
    have hnilPay : ((taggedPayRows payments).filter
          (fun x => taggedKey x == K)).filter (fun x => isItemOf i x.1) = [] :=
      List.filter_eq_nil_iff.mpr (fun x hx => by simp [hpayfree x hx])
    have hnilRecon : ((taggedReconRows invoices payments).filter
          (fun x => taggedKey x == K)).filter (fun x => isItemOf i x.1) = [] :=
      List.filter_eq_nil_iff.mpr (fun x hx => by simp [hreconfree x hx])
    have hTisI : (taggedSorted invoices payments).filter (fun x => isItemOf i x.1)
        = ((taggedItemRows invoices).filter
            (fun x => taggedKey x == K)).filter (fun x => isItemOf i x.1) := by
      conv_lhs => rw [hdecomp]
      rw [List.filter_append, List.filter_append, hnilU, hnilV,
        hstable, hsplit, List.filter_append, List.filter_append, hnilPay, hnilRecon]
      simp
    refine ⟨(taggedSorted invoices payments).filter
          (fun x => decide (taggedKey x < K)) ++ P1,
        Q1 ++ (((taggedPayRows payments).filter (fun x => taggedKey x == K)
          ++ (taggedReconRows invoices payments).filter (fun x => taggedKey x == K))
          ++ (taggedSorted invoices payments).filter
            (fun x => decide (K < taggedKey x))), ?_, ?_, ?_⟩
    · conv_lhs => rw [hdecomp]
      rw [hstable, hsplit, hblock2, hTisI]
      simp [List.append_assoc]
    · intro x hx
      rcases List.mem_append.mp hx with hx | hx
      · exact hUfree x hx
      · exact hP1 x hx
    · intro x hx
      rcases List.mem_append.mp hx with hx | hx
      · exact hQ1 x hx
      rcases List.mem_append.mp hx with hx | hx
      · rcases List.mem_append.mp hx with hx | hx
        · exact hpayfree x hx
        · exact hreconfree x hx
      · exact hVfree x hx
  · have hfree := item_rows_free_of_ge invoices payments i hi
    refine ⟨taggedSorted invoices payments, [], ?_, hfree, by simp⟩
    rw [List.filter_eq_nil_iff.mpr (fun x hx => by simp [hfree x hx])]
    simp

theorem item_rows_precede (invoices : List Invoice) (payments : List Payment)
    (p q : Nat) (hp : p < (taggedSorted invoices payments).length)
    (hq : q < (taggedSorted invoices payments).length)
    (hIp : isItemOrigin ((taggedSorted invoices payments).get ⟨p, hp⟩).1 = true)
    (hIq : isItemOrigin ((taggedSorted invoices payments).get ⟨q, hq⟩).1 = false)
    (hdate : ((taggedSorted invoices payments).get ⟨p, hp⟩).2.dateObj
        = ((taggedSorted invoices payments).get ⟨q, hq⟩).2.dateObj) :
    p < q := by
  set K := ((taggedSorted invoices payments).get ⟨p, hp⟩).2.dateObj with hKdef
  have hsorted : (taggedSorted invoices payments).Pairwise
      (fun a b => taggedKey a ≤ taggedKey b) :=
    sortKeyed_sorted taggedKey (taggedBuild invoices payments)
  have hdecomp := sorted_filter_decomp taggedKey (taggedSorted invoices payments) K hsorted
  have hU : ∀ x ∈ (taggedSorted invoices payments).filter
      (fun x => decide (taggedKey x < K)), taggedKey x < K := by
    intro x hx
    have := (List.mem_filter.mp hx).2
    simpa using this
  have hV : ∀ x ∈ (taggedSorted invoices payments).filter
      (fun x => decide (K < taggedKey x)), K < taggedKey x := by
    intro x hx
    have := (List.mem_filter.mp hx).2
    simpa using this
  have hp' : p < ((taggedSorted invoices payments).filter
        (fun x => decide (taggedKey x < K))
      ++ (taggedSorted invoices payments).filter (fun x => taggedKey x == K)
      ++ (taggedSorted invoices payments).filter
        (fun x => decide (K < taggedKey x))).length := by
    rw [← hdecomp]
    exact hp
  have hq' : q < ((taggedSorted invoices payments).filter
        (fun x => decide (taggedKey x < K))
      ++ (taggedSorted invoices payments).filter (fun x => taggedKey x == K)
      ++ (taggedSorted invoices payments).filter
        (fun x => decide (K < taggedKey x))).length := by
    rw [← hdecomp]
    exact hq
  have hgp : (taggedSorted invoices payments).get ⟨p, hp⟩
      = ((taggedSorted invoices payments).filter (fun x => decide (taggedKey x < K))
        ++ (taggedSorted invoices payments).filter (fun x => taggedKey x == K)
        ++ (taggedSorted invoices payments).filter
          (fun x => decide (K < taggedKey x))).get ⟨p, hp'⟩ := by
    simp only [List.get_eq_getElem]
    exact List.getElem_of_eq hdecomp hp
  have hgq : (taggedSorted invoices payments).get ⟨q, hq⟩
      = ((taggedSorted invoices payments).filter (fun x => decide (taggedKey x < K))
        ++ (taggedSorted invoices payments).filter (fun x => taggedKey x == K)
        ++ (taggedSorted invoices payments).filter
          (fun x => decide (K < taggedKey x))).get ⟨q, hq'⟩ := by
    simp only [List.get_eq_getElem]
    exact List.getElem_of_eq hdecomp hq
  have hkp : taggedKey (((taggedSorted invoices payments).filter
        (fun x => decide (taggedKey x < K))
      ++ (taggedSorted invoices payments).filter (fun x => taggedKey x == K)
      ++ (taggedSorted invoices payments).filter
        (fun x => decide (K < taggedKey x))).get ⟨p, hp'⟩) = K := by
    rw [← hgp]
    exact hKdef.symm
  have hkq : taggedKey (((taggedSorted invoices payments).filter
        (fun x => decide (taggedKey x < K))
      ++ (taggedSorted invoices payments).filter (fun x => taggedKey x == K)
      ++ (taggedSorted invoices payments).filter
        (fun x => decide (K < taggedKey x))).get ⟨q, hq'⟩) = K := by
    rw [← hgq]
    exact hdate.symm
  obtain ⟨h1p, h2p, hwp, hWp⟩ := key_window taggedKey _ _ _ K hU hV p hp' hkp
  obtain ⟨h1q, h2q, hwq, hWq⟩ := key_window taggedKey _ _ _ K hU hV q hq' hkq
  have hWAB : (taggedSorted invoices payments).filter (fun x => taggedKey x == K)
      = (taggedItemRows invoices).filter (fun x => taggedKey x == K)
        ++ ((taggedPayRows payments).filter (fun x => taggedKey x == K)
        ++ (taggedReconRows invoices payments).filter (fun x => taggedKey x == K)) := by
    have hstab : (taggedSorted invoices payments).filter (fun x => taggedKey x == K)
        = (taggedBuild invoices payments).filter (fun x => taggedKey x == K) :=
      sortKeyed_filter_key taggedKey (taggedBuild invoices payments) K
    rw [hstab, taggedBuild_parts]
    simp [List.filter_append, List.append_assoc]
  have hA : ∀ x ∈ (taggedItemRows invoices).filter (fun x => taggedKey x == K),
      isItemOrigin x.1 = true := by
    intro x hx
    obtain ⟨i', j, _, htag, _⟩ :=
      taggedItemRows_tags invoices x (List.mem_filter.mp hx).1
    rw [htag]
    rfl
  have hBn : ∀ x ∈ (taggedPayRows payments).filter (fun x => taggedKey x == K)
      ++ (taggedReconRows invoices payments).filter (fun x => taggedKey x == K),
      isItemOrigin x.1 = false := by
    intro x hx
    rcases List.mem_append.mp hx with hx | hx
    · obtain ⟨k, htag⟩ := taggedPayRows_tags payments x (List.mem_filter.mp hx).1
      rw [htag]
      rfl
    · obtain ⟨k, htag⟩ :=
        taggedReconRows_tags invoices payments x (List.mem_filter.mp hx).1
      rw [htag]
      rfl
  have hwp2 : p - ((taggedSorted invoices payments).filter
      (fun x => decide (taggedKey x < K))).length
        < ((taggedItemRows invoices).filter (fun x => taggedKey x == K)
          ++ ((taggedPayRows payments).filter (fun x => taggedKey x == K)
          ++ (taggedReconRows invoices payments).filter
            (fun x => taggedKey x == K))).length := by
    rw [← hWAB]
    exact hwp
  have hwq2 : q - ((taggedSorted invoices payments).filter
      (fun x => decide (taggedKey x < K))).length
        < ((taggedItemRows invoices).filter (fun x => taggedKey x == K)
          ++ ((taggedPayRows payments).filter (fun x => taggedKey x == K)
          ++ (taggedReconRows invoices payments).filter
            (fun x => taggedKey x == K))).length := by
    rw [← hWAB]
    exact hwq
  have hWABp : ((taggedSorted invoices payments).filter
        (fun x => taggedKey x == K)).get
          ⟨p - ((taggedSorted invoices payments).filter
            (fun x => decide (taggedKey x < K))).length, hwp⟩
      = ((taggedItemRows invoices).filter (fun x => taggedKey x == K)
          ++ ((taggedPayRows payments).filter (fun x => taggedKey x == K)
          ++ (taggedReconRows invoices payments).filter
            (fun x => taggedKey x == K))).get
          ⟨p - ((taggedSorted invoices payments).filter
            (fun x => decide (taggedKey x < K))).length, hwp2⟩ := by
    simp only [List.get_eq_getElem]
    exact List.getElem_of_eq hWAB hwp
  have hWABq : ((taggedSorted invoices payments).filter
        (fun x => taggedKey x == K)).get
          ⟨q - ((taggedSorted invoices payments).filter
            (fun x => decide (taggedKey x < K))).length, hwq⟩
      = ((taggedItemRows invoices).filter (fun x => taggedKey x == K)
          ++ ((taggedPayRows payments).filter (fun x => taggedKey x == K)
          ++ (taggedReconRows invoices payments).filter
            (fun x => taggedKey x == K))).get
          ⟨q - ((taggedSorted invoices payments).filter
            (fun x => decide (taggedKey x < K))).length, hwq2⟩ := by
    simp only [List.get_eq_getElem]
    exact List.getElem_of_eq hWAB hwq
  have hIp2 := hIp
  rw [hgp, hWp, hWABp] at hIp2
  have hIq2 := hIq
  rw [hgq, hWq, hWABq] at hIq2
  have hplt := (two_part_index _ _ _ hA hBn _ hwp2).mp hIp2
  have hqge : ¬ (q - ((taggedSorted invoices payments).filter
      (fun x => decide (taggedKey x < K))).length
        < ((taggedItemRows invoices).filter (fun x => taggedKey x == K)).length) := by
    intro hlt
    have := (two_part_index _ _ _ hA hBn _ hwq2).mpr hlt
    rw [this] at hIq2
    exact Bool.false_ne_true hIq2.symm
  omega

/-- C3.  The returned entry list is sorted ascending by the original
date value: any earlier entry's `dateObj` is at most any later entry's.
The sort key is the stored `dateObj` (a sort keyed on it commutes with
any rewriting of the formatted `date` display string, which it never
consults), and the sort is stable: for every date, the entries bearing
that date appear in exactly their insertion order (tagged by origin).
Consequently all line items of one invoice occupy consecutive positions
of the output, and every invoice line row precedes every payment or
reconciliation row carrying an equal date — in particular an invoice's
line items precede that invoice's own payment entries. -/
theorem ledger_entries_sorted_stable (invoices : List Invoice) (payments : List Payment) :
    (ledgerEntries invoices payments).Pairwise (fun a b => a.dateObj ≤ b.dateObj) ∧
    List.Perm (sortedLedgerEntries invoices payments) (buildLedgerEntries invoices payments) ∧
    (taggedSorted invoices payments).map Prod.snd = sortedLedgerEntries invoices payments ∧
    (∀ K : Int, (taggedSorted invoices payments).filter (fun x => x.2.dateObj == K)
        = (taggedBuild invoices payments).filter (fun x => x.2.dateObj == K)) ∧
    (∀ f : String → String,
      sortKeyed rowKey ((buildLedgerEntries invoices payments).map
          (fun r => { r with date := f r.date }))
        = (sortedLedgerEntries invoices payments).map (fun r => { r with date := f r.date })) ∧
    (∀ i, ∃ P Q, taggedSorted invoices payments
        = P ++ (taggedSorted invoices payments).filter (fun x => isItemOf i x.1) ++ Q
      ∧ (∀ x ∈ P, isItemOf i x.1 = false) ∧ (∀ x ∈ Q, isItemOf i x.1 = false)) ∧
    (∀ p q (hp : p < (taggedSorted invoices payments).length)
        (hq : q < (taggedSorted invoices payments).length),
      isItemOrigin ((taggedSorted invoices payments).get ⟨p, hp⟩).1 = true →
      isItemOrigin ((taggedSorted invoices payments).get ⟨q, hq⟩).1 = false →
      ((taggedSorted invoices payments).get ⟨p, hp⟩).2.dateObj
          = ((taggedSorted invoices payments).get ⟨q, hq⟩).2.dateObj →
      p < q) := by
  refine ⟨?_, sortKeyed_perm rowKey (buildLedgerEntries invoices payments),
    taggedSorted_map_snd invoices payments,
    fun K => sortKeyed_filter_key taggedKey (taggedBuild invoices payments) K,
    fun f => (sortKeyed_map (fun r => { r with date := f r.date }) rowKey
      (buildLedgerEntries invoices payments)).symm,
    item_rows_adjacent invoices payments,
    item_rows_precede invoices payments⟩
  have hs : (sortedLedgerEntries invoices payments).Pairwise
      (fun a b => rowKey a ≤ rowKey b) :=
    sortKeyed_sorted rowKey (buildLedgerEntries invoices payments)
  have hmap : (ledgerEntries invoices payments).map (fun r => r.dateObj)
      = (sortedLedgerEntries invoices payments).map (fun r => r.dateObj) :=
    attachBalances_map _ _ (fun r b => rfl)
  have h1 : ((sortedLedgerEntries invoices payments).map
      (fun r => r.dateObj)).Pairwise (fun a b => a ≤ b) :=
    List.pairwise_map.mpr hs
  rw [← hmap] at h1
  exact List.pairwise_map.mp h1

unseal Rat.sub Rat.add Rat.mul in
/-- Witness for C3 on the end-to-end scenario: the sorted tagged output
is `[item 0, recon 0, item 1, payment 0]`, the entry dates are
nondecreasing, and the line item of the second invoice (position 2)
precedes that invoice's payment entry (position 3), which carries an
equal date. -/
theorem ledger_entries_sorted_stable_witness :
    ((taggedSorted [exInvoiceA, exInvoiceB] [exPaymentB]).map (fun x => x.1))
        = [RowOrigin.item 0 0, RowOrigin.recon 0, RowOrigin.item 1 0, RowOrigin.pay 0] ∧
    (2 : Nat) < 3 := by
  refine ⟨by decide, ?_⟩
  exact (ledger_entries_sorted_stable [exInvoiceA, exInvoiceB] [exPaymentB]).2.2.2.2.2.2
    2 3 (by decide) (by decide) (by decide) (by decide) (by decide)
